import Mathlib

/-!
Verification of the local grammar checker, suggestion applier, analysis
aggregator and AI-suggestion validation pipeline of the grammarly-clone
repository (src/utils/grammarChecker.ts, src/utils/advancedAnalysis.ts,
src/utils/aiGrammarChecker.ts).

The TypeScript code is shallowly embedded:
* JS strings are Lean `String`s (lists of characters); offsets are `Int`
  where the source stores JS numbers in suggestion records, `Nat` internally.
* JS regular expressions are embedded by a small executable backtracking
  engine (`RE`, `mtchF`, `execAll`) whose outcome order reproduces the
  leftmost, greedy/lazy, alternation-left-first preference order of
  ECMAScript regexes, with capture groups, word boundaries `b`,
  backreferences, negative lookahead and the multiline `^` anchor.
  Each rule of the rule tables is translated as an `RE` value.
* `Date.now()`/`Math.random()` used for the `id` field are modelled by an
  explicit oracle `ids : Nat -> String` giving the fresh suffix for the k-th
  suggestion created during one invocation.
* JS float arithmetic in the analysis heuristics is modelled by exact `Rat`
  arithmetic; divisions by zero (JS `NaN`/`Infinity`) are modelled by the
  helpers `jsDivGt`/`jsRatioOutside` which reproduce the JS comparison
  results for those values.
-/

set_option maxRecDepth 20000

/-- The character class of the JS regex escape w, that is [A-Za-z0-9_]. -/
def isWordChar (c : Char) : Bool :=
  (('a' ≤ c && c ≤ 'z') || ('A' ≤ c && c ≤ 'Z') || ('0' ≤ c && c ≤ '9') || c == '_')

/-- Whitespace as matched by the JS regex escape s (ASCII part). -/
def jsIsSpace (c : Char) : Bool :=
  (c == ' ' || c == '\t' || c == '\n' || c == '\r' || c == '\x0b' || c == '\x0c')

/-- ASCII lower-casing, modelling String.prototype.toLowerCase on the
ASCII strings handled by the rule tables. -/
def asciiLower (c : Char) : Char :=
  if 'A' ≤ c && c ≤ 'Z' then Char.ofNat (c.toNat + 32) else c

/-- Sentence-ending punctuation, the class [.!?]. -/
def isSentEnd (c : Char) : Bool := (c == '.' || c == '!' || c == '?')

/-- Lower-case a character list (String.prototype.toLowerCase, char-wise). -/
def lowerL (l : List Char) : List Char := l.map asciiLower

/-- String.prototype.trim on character lists. -/
def trimL (l : List Char) : List Char :=
  ((l.dropWhile jsIsSpace).reverse.dropWhile jsIsSpace).reverse

/-- String.prototype.trim. -/
def jsTrim (s : String) : String := String.mk (trimL s.data)

/-- The slice of `t` between offsets `a` (inclusive) and `b` (exclusive). -/
def extractL (t : List Char) (a b : Nat) : List Char := (t.drop a).take (b - a)

/-- First index at which `pat` occurs in the list (String.prototype.indexOf;
`none` models the JS result -1). -/
def firstIdxGo (pat : List Char) : List Char → Option Nat
  | [] => if pat.isEmpty then some 0 else none
  | c :: rest =>
      if pat.isPrefixOf (c :: rest) then some 0
      else (firstIdxGo pat rest).map (· + 1)

/-- String.prototype.indexOf on character lists. -/
def firstIdxL (t pat : List Char) : Option Nat := firstIdxGo pat t

/-- String.prototype.includes on character lists. -/
def containsL (t pat : List Char) : Bool := (firstIdxL t pat).isSome

/-- JS String.prototype.substring for already-clamped natural offsets. -/
def jsSubstringL (t : List Char) (a b : Nat) : List Char := extractL t a b

/-- Capture-group store: group index, start offset, end offset.  A new
assignment to a group is prepended, so lookup finds the latest one, as in
the ECMAScript capture semantics where the last iteration of a quantified
group wins. -/
abbrev Caps : Type := List (Nat × Nat × Nat)

/-- Latest recorded span of capture group `i`. -/
def capLookup (cs : Caps) (i : Nat) : Option (Nat × Nat) :=
  match cs with
  | [] => none
  | (j, a, b) :: rest => if j == i then some (a, b) else capLookup rest i

/-- Shallow embedding of the JS regular-expression fragment used by the
repository: character classes, concatenation, alternation, greedy and lazy
star, capture groups, backreferences (optionally case-insensitive), word
boundary, the `^` anchor (optionally multiline) and negative lookahead. -/
inductive RE where
  | eps
  | cls (p : Char → Bool)
  | cat (r1 r2 : RE)
  | alt (r1 r2 : RE)
  | star (lazy : Bool) (r : RE)
  | group (i : Nat) (r : RE)
  | backref (i : Nat) (ci : Bool)
  | wordB
  | lineStart (multiline : Bool)
  | lookNeg (r : RE)

/-- Word-boundary test of the JS regex escape b at offset `p`. -/
def boundaryAt (t : List Char) (p : Nat) : Bool :=
  let before := if p == 0 then false else
    match t[p-1]? with | some c => isWordChar c | none => false
  let here := match t[p]? with | some c => isWordChar c | none => false
  before != here

/-- Test for the `^` anchor at offset `p` (multiline: also after a line
terminator). -/
def lineStartAt (t : List Char) (p : Nat) (m : Bool) : Bool :=
  p == 0 || (m && (match t[p-1]? with
                   | some c => c == '\n' || c == '\r'
                   | none => false))

/-- Does the captured text `pat` occur literally (or case-insensitively if
`ci`) at offset `p`?  Used for backreferences. -/
def ciPrefixAt (t : List Char) (p : Nat) (pat : List Char) (ci : Bool) : Bool :=
  match pat with
  | [] => true
  | c :: rest =>
      match t[p]? with
      | some d => (if ci then asciiLower d == asciiLower c else d == c) &&
                  ciPrefixAt t (p+1) rest ci
      | none => false

/-- One level of the backtracking matcher.  `deeper` performs the
continuation of a quantifier iteration (one fuel level down).  The returned
list of (end offset, captures) outcomes is in ECMAScript preference order:
the head is the match the JS engine commits to. -/
def mtchStep (t : List Char) (deeper : RE → Nat → Caps → List (Nat × Caps)) :
    RE → Nat → Caps → List (Nat × Caps)
  | .eps, p, cs => [(p, cs)]
  | .cls f, p, cs =>
      match t[p]? with
      | some c => if f c then [(p+1, cs)] else []
      | none => []
  | .cat r1 r2, p, cs =>
      (mtchStep t deeper r1 p cs).flatMap (fun x => mtchStep t deeper r2 x.1 x.2)
  | .alt r1 r2, p, cs => mtchStep t deeper r1 p cs ++ mtchStep t deeper r2 p cs
  | .star lz r, p, cs =>
      let once := (mtchStep t deeper r p cs).filter (fun x => p < x.1)
      let more := once.flatMap (fun x => deeper (.star lz r) x.1 x.2)
      if lz then (p, cs) :: more else more ++ [(p, cs)]
  | .group i r, p, cs =>
      (mtchStep t deeper r p cs).map (fun x => (x.1, ((i, p, x.1) :: x.2 : Caps)))
  | .backref i ci, p, cs =>
      match capLookup cs i with
      | none => [(p, cs)]
      | some (a, b) =>
          let pat := extractL t a b
          if ciPrefixAt t p pat ci then [(p + pat.length, cs)] else []
  | .wordB, p, cs => if boundaryAt t p then [(p, cs)] else []
  | .lineStart m, p, cs => if lineStartAt t p m then [(p, cs)] else []
  | .lookNeg r, p, cs => if (mtchStep t deeper r p cs).isEmpty then [(p, cs)] else []

/-- Fueled backtracking matcher.  One unit of fuel is consumed per
quantifier iteration; since (as in ECMAScript) an iteration that consumes
no character terminates the loop, `mfuel` below is always sufficient. -/
def mtchF (t : List Char) : Nat → RE → Nat → Caps → List (Nat × Caps)
  | 0, _, _, _ => []
  | fuel+1, r, p, cs => mtchStep t (mtchF t fuel) r p cs

/-- Fuel bound that is sufficient for every pattern of the rule tables
(star nesting depth is at most 2 there, and every iteration consumes at
least one character). -/
def mfuel (t : List Char) : Nat := (t.length + 2) * (t.length + 2)

/-- A regex match: span and captures (match[0] is the span's slice). -/
structure RMatch where
  pos : Nat
  stop : Nat
  caps : Caps
deriving DecidableEq

/-- Scan offsets `p`, `p+1`, ... for the leftmost match (RegExp.prototype.exec
search). -/
def scanFrom (t : List Char) (re : RE) : Nat → Nat → Option RMatch
  | 0, _ => none
  | f+1, p =>
      match (mtchF t (mfuel t) re p []).head? with
      | some x => some ⟨p, x.1, x.2⟩
      | none => if p < t.length then scanFrom t re f (p+1) else none

/-- First match of `re` in `t` (exec on a fresh non-global regex). -/
def execFirst (t : List Char) (re : RE) : Option RMatch :=
  scanFrom t re (t.length + 1) 0

/-- The loop `while ((match = regex.exec(text)) !== null)` for a global
regex: each search resumes at the end of the previous match.  (A JS engine
would loop forever on an empty match; every rule pattern matches at least
one character, so the stop guard is never hit for them.) -/
def execAllGo (t : List Char) (re : RE) : Nat → Nat → List RMatch
  | 0, _ => []
  | f+1, i =>
      match scanFrom t re (t.length + 1 - i) i with
      | none => []
      | some m => m :: (if i < m.stop then execAllGo t re f m.stop else [])

/-- All matches of a global regex, in order. -/
def execAll (t : List Char) (re : RE) : List RMatch :=
  execAllGo t re (t.length + 1) 0

/-- Minimal number of characters any match of `re` consumes. -/
def minLen : RE → Nat
  | .eps => 0
  | .cls _ => 1
  | .cat r1 r2 => minLen r1 + minLen r2
  | .alt r1 r2 => min (minLen r1) (minLen r2)
  | .star _ _ => 0
  | .group _ r => minLen r
  | .backref _ _ => 0
  | .wordB => 0
  | .lineStart _ => 0
  | .lookNeg _ => 0

/-! ### Regex builders for the rule-table patterns -/

/-- A case-sensitive literal character. -/
def chrCS (c : Char) : RE := .cls (fun d => d == c)

/-- A case-insensitive literal character (the `i` flag). -/
def chrCI (c : Char) : RE := .cls (fun d => asciiLower d == asciiLower c)

/-- Concatenation of a list of regexes. -/
def catL (l : List RE) : RE := l.foldr RE.cat RE.eps

/-- Alternation, preferring earlier entries (left bias of `|`). -/
def altsL : List RE → RE
  | [] => RE.eps
  | [r] => r
  | r :: rest => RE.alt r (altsL rest)

/-- A case-insensitive literal string. -/
def litCI (s : String) : RE := catL (s.data.map chrCI)

/-- A case-sensitive literal string. -/
def litCS (s : String) : RE := catL (s.data.map chrCS)

/-- Greedy plus: `r+`. -/
def rplus (r : RE) : RE := RE.cat r (RE.star false r)

/-- Greedy option: `r?` (also the building block for bounded repetition). -/
def ropt (r : RE) : RE := RE.alt r RE.eps

/-- Exactly `n` copies of `r` (for the mandatory part of a bound like n-or-more-times). -/
def repn (r : RE) : Nat → RE
  | 0 => RE.eps
  | n+1 => RE.cat r (repn r n)

/-- The escape s followed by plus. -/
def wsP : RE := rplus (RE.cls jsIsSpace)

/-- The escape w as a class. -/
def wordCls : RE := RE.cls isWordChar

/-- The escape w followed by plus. -/
def wPlus : RE := rplus wordCls

/-- A single word with boundaries on both sides, with the i flag. -/
def bWord (w : String) : RE := catL [RE.wordB, litCI w, RE.wordB]

/-- The words joined by whitespace-plus separators (no boundaries yet). -/
def phraseCore : List String → RE
  | [] => RE.eps
  | [w] => litCI w
  | w :: rest => RE.cat (litCI w) (RE.cat wsP (phraseCore rest))

/-- A boundary-delimited word sequence with the i flag, the shape of most
rule patterns. -/
def bPhrase (ws : List String) : RE :=
  RE.cat RE.wordB (RE.cat (phraseCore ws) RE.wordB)

/-! ### Data model (src/store/useDocumentStore.ts GrammarSuggestion) -/

/-- The suggestion categories. -/
inductive SugType where
  | grammar
  | spelling
  | style
  | readability
deriving DecidableEq

/-- The severity levels. -/
inductive Severity where
  | low
  | medium
  | high
deriving DecidableEq

/-- GrammarSuggestion of src/store/useDocumentStore.ts (the field written
`end` in the source is `endPos` here because `end` is a Lean keyword). -/
structure GrammarSuggestion where
  id : String
  type : SugType
  start : Int
  endPos : Int
  original : String
  suggestion : String
  message : String
  severity : Severity
deriving DecidableEq

/-- One entry of the rule tables: pattern, replacement template, message,
category, severity, the regex's global flag and the advisory marker (the
latter two are carried but, as in the source, `advisory` is never read by
checkText or applySuggestion). -/
structure Rule where
  re : RE
  global : Bool
  template : String
  message : String
  type : SugType
  severity : Severity
  advisory : Bool

/-- Rule constructor (all source rules have the g flag). -/
def R (re : RE) (template message : String) (ty : SugType) (sev : Severity) : Rule :=
  { re := re, global := true, template := template, message := message,
    type := ty, severity := sev, advisory := false }

/-- Rule constructor for the two advisory-flagged rules. -/
def RA (re : RE) (template message : String) (ty : SugType) (sev : Severity) : Rule :=
  { re := re, global := true, template := template, message := message,
    type := ty, severity := sev, advisory := true }

/-! ### The rule tables of src/utils/grammarChecker.ts, in source order -/

/-- grammarRules of the source (15 rules). -/
def grammarRules : List Rule := [
  R (RE.cat RE.wordB (phraseCore ["i", "am", "go"])) "I am going"
    "Use \"going\" instead of \"go\" with present continuous tense" .grammar .high,
  R (bPhrase ["their", "are"]) "there are"
    "Use \"there are\" instead of \"their are\"" .grammar .high,
  R (bPhrase ["your", "welcome"]) "you're welcome"
    "Use \"you're welcome\" (contraction) instead of \"your welcome\"" .grammar .high,
  R (bPhrase ["its", "a", "good", "idea"]) "it's a good idea"
    "Use \"it's\" (contraction) for \"it is\"" .grammar .medium,
  R (bPhrase ["could", "of"]) "could have"
    "Use \"could have\" instead of \"could of\"" .grammar .high,
  R (bPhrase ["would", "of"]) "would have"
    "Use \"would have\" instead of \"would of\"" .grammar .high,
  R (bPhrase ["should", "of"]) "should have"
    "Use \"should have\" instead of \"should of\"" .grammar .high,
  R (bPhrase ["there", "house"]) "their house"
    "Use \"their\" (possessive) instead of \"there\"" .grammar .high,
  R (bPhrase ["your", "going"]) "you're going"
    "Use \"you're\" (you are) instead of \"your\"" .grammar .high,
  R (bPhrase ["to", "much"]) "too much"
    "Use \"too much\" (excessive) instead of \"to much\"" .grammar .high,
  R (bPhrase ["whos", "there"]) "who's there"
    "Use \"who's\" (who is) instead of \"whose\" when meaning \"who is\"" .grammar .medium,
  R (bPhrase ["its", "time"]) "it's time"
    "Use \"it's\" (it is) instead of \"its\" when meaning \"it is\"" .grammar .medium,
  R (bPhrase ["between", "you", "and", "i"]) "between you and me"
    "Use \"between you and me\" (objective case) instead of \"between you and I\"" .grammar .high,
  R (bPhrase ["i", "seen"]) "I saw"
    "Use \"I saw\" instead of \"I seen\"" .grammar .high,
  R (catL [RE.wordB, litCI "me", wsP, litCI "and", wsP, RE.group 1 wPlus, wsP,
           RE.group 2 (altsL [litCI "went", litCI "go", litCI "are", litCI "were"])])
    "$1 and I $2" "Use \"I\" as the subject instead of \"me\"" .grammar .medium
]

/-- spellingRules of the source (15 rules; the last one matches "public"
and suggests "public", exactly as written there). -/
def spellingRules : List Rule := [
  R (bWord "teh") "the" "Spelling error: \"teh\" should be \"the\"" .spelling .high,
  R (bWord "recieve") "receive"
    "Spelling error: \"recieve\" should be \"receive\" (i before e except after c)" .spelling .high,
  R (bWord "occured") "occurred"
    "Spelling error: \"occured\" should be \"occurred\" (double r)" .spelling .high,
  R (bWord "seperate") "separate"
    "Spelling error: \"seperate\" should be \"separate\" (a not e)" .spelling .high,
  R (bWord "definately") "definitely"
    "Spelling error: \"definately\" should be \"definitely\"" .spelling .high,
  R (bWord "enviornment") "environment"
    "Spelling error: \"enviornment\" should be \"environment\"" .spelling .high,
  R (bWord "neccessary") "necessary"
    "Spelling error: \"neccessary\" should be \"necessary\" (one c, two s)" .spelling .high,
  R (bWord "experiance") "experience"
    "Spelling error: \"experiance\" should be \"experience\"" .spelling .high,
  R (bWord "belive") "believe"
    "Spelling error: \"belive\" should be \"believe\" (i before e)" .spelling .high,
  R (bWord "acommodate") "accommodate"
    "Spelling error: \"acommodate\" should be \"accommodate\" (double c, double m)" .spelling .high,
  R (bWord "mispelled") "misspelled"
    "Spelling error: \"mispelled\" should be \"misspelled\" (double s)" .spelling .high,
  R (bWord "tounge") "tongue" "Spelling error: \"tounge\" should be \"tongue\"" .spelling .high,
  R (bWord "wierd") "weird" "Spelling error: \"wierd\" should be \"weird\" (e before i)" .spelling .high,
  R (bWord "goverment") "government"
    "Spelling error: \"goverment\" should be \"government\" (n after r)" .spelling .high,
  R (bWord "public") "public"
    "Spelling error: \"pubic\" should be \"public\" (missing l)" .spelling .high
]

/-- styleRules of the source (35 rules, including the duplicated block of
weak-adjective replacements). -/
def styleRules : List Rule := [
  R (bPhrase ["very", "good"]) "excellent"
    "Consider using \"excellent\" instead of \"very good\" for stronger impact" .style .low,
  R (bPhrase ["very", "bad"]) "terrible"
    "Consider using \"terrible\" instead of \"very bad\" for stronger impact" .style .low,
  R (bPhrase ["very", "important"]) "crucial"
    "Consider using \"crucial\" instead of \"very important\" for stronger impact" .style .low,
  R (bPhrase ["very", "big"]) "enormous"
    "Consider using \"enormous\" instead of \"very big\" for stronger impact" .style .low,
  R (bPhrase ["very", "small"]) "tiny"
    "Consider using \"tiny\" instead of \"very small\" for stronger impact" .style .low,
  R (bPhrase ["very", "fast"]) "rapid"
    "Consider using \"rapid\" instead of \"very fast\" for stronger impact" .style .low,
  R (bPhrase ["very", "slow"]) "sluggish"
    "Consider using \"sluggish\" instead of \"very slow\" for stronger impact" .style .low,
  R (bPhrase ["very", "happy"]) "delighted"
    "Consider using \"delighted\" instead of \"very happy\" for stronger impact" .style .low,
  R (bPhrase ["very", "sad"]) "devastated"
    "Consider using \"devastated\" instead of \"very sad\" for stronger impact" .style .low,
  R (bPhrase ["very", "tired"]) "exhausted"
    "Consider using \"exhausted\" instead of \"very tired\" for stronger impact" .style .low,
  R (bPhrase ["a", "lot", "of"]) "many"
    "Consider using \"many\" instead of \"a lot of\" for more formal writing" .style .low,
  R (bPhrase ["kind", "of"]) "somewhat"
    "Consider using \"somewhat\" instead of \"kind of\" for more formal writing" .style .low,
  R (bPhrase ["really", "good"]) "exceptional"
    "Consider using \"exceptional\" instead of \"really good\" for stronger impact" .style .low,
  R (bPhrase ["in", "order", "to"]) "to"
    "Consider using \"to\" instead of \"in order to\" for more concise writing" .style .low,
  R (bPhrase ["due", "to", "the", "fact", "that"]) "because"
    "Consider using \"because\" instead of \"due to the fact that\" for clearer writing" .style .medium,
  R (bPhrase ["at", "this", "point", "in", "time"]) "now"
    "Consider using \"now\" instead of \"at this point in time\" for more concise writing" .style .medium,
  R (bPhrase ["for", "the", "purpose", "of"]) "to"
    "Consider using \"to\" instead of \"for the purpose of\" for more concise writing" .style .medium,
  R (bPhrase ["in", "the", "event", "that"]) "if"
    "Consider using \"if\" instead of \"in the event that\" for clearer writing" .style .medium,
  R (bPhrase ["with", "regard", "to"]) "regarding"
    "Consider using \"regarding\" instead of \"with regard to\" for more concise writing" .style .low,
  R (bPhrase ["as", "a", "matter", "of", "fact"]) "actually"
    "Consider using \"actually\" instead of \"as a matter of fact\" for more concise writing" .style .low,
  R (bPhrase ["mistakes", "were", "made"]) "we made mistakes"
    "Consider using active voice for clearer responsibility" .style .medium,
  R (bPhrase ["the", "decision", "was", "made"]) "we decided"
    "Consider using active voice for clearer communication" .style .medium,
  R (bPhrase ["impact", "on"]) "affect"
    "Consider using \"affect\" instead of \"impact on\" (impact is a noun)" .style .low,
  R (bWord "utilize") "use"
    "Consider using \"use\" instead of \"utilize\" for simpler language" .style .low,
  R (bWord "facilitate") "help"
    "Consider using \"help\" instead of \"facilitate\" for clearer communication" .style .low,
  R (bPhrase ["very", "good"]) "excellent"
    "Consider using \"excellent\" instead of \"very good\"" .style .low,
  R (bPhrase ["very", "bad"]) "terrible"
    "Consider using \"terrible\" instead of \"very bad\"" .style .low,
  R (bPhrase ["very", "big"]) "enormous"
    "Consider using \"enormous\" instead of \"very big\"" .style .low,
  R (bPhrase ["very", "small"]) "tiny"
    "Consider using \"tiny\" instead of \"very small\"" .style .low,
  R (bPhrase ["very", "tired"]) "exhausted"
    "Consider using \"exhausted\" instead of \"very tired\"" .style .low,
  R (bPhrase ["very", "happy"]) "delighted"
    "Consider using \"delighted\" instead of \"very happy\"" .style .low,
  R (bPhrase ["very", "sad"]) "devastated"
    "Consider using \"devastated\" instead of \"very sad\"" .style .low,
  R (bPhrase ["very", "angry"]) "furious"
    "Consider using \"furious\" instead of \"very angry\"" .style .low,
  R (bPhrase ["very", "cold"]) "freezing"
    "Consider using \"freezing\" instead of \"very cold\"" .style .low,
  R (bPhrase ["very", "hot"]) "scorching"
    "Consider using \"scorching\" instead of \"very hot\"" .style .low
]

/-- The pattern of the long-sentence rule: 150 or more characters outside [.!?]. -/
def longSentenceRE : RE :=
  RE.cat (repn (RE.cls (fun c => !isSentEnd c)) 150) (RE.star false (RE.cls (fun c => !isSentEnd c)))

/-- The repeated-word pattern with a case-insensitive backreference. -/
def repeatedWordRE : RE :=
  catL [RE.wordB, RE.group 1 wPlus, wsP, RE.backref 1 true, RE.wordB]

/-- The repeated-very pattern: boundary then two-or-more copies of the
captured group very-plus-whitespace. -/
def veryRepRE : RE :=
  catL [RE.wordB, RE.group 1 (RE.cat (litCI "very") wsP), RE.group 1 (RE.cat (litCI "very") wsP),
        RE.star false (RE.group 1 (RE.cat (litCI "very") wsP))]

/-- One one-to-three-times word-plus-whitespace chunk of the
sentence-variety pattern, capture group `i`. -/
def svChunk (i : Nat) : RE :=
  RE.cat (RE.group i (RE.cat wPlus wsP))
    (ropt (RE.cat (RE.group i (RE.cat wPlus wsP)) (ropt (RE.group i (RE.cat wPlus wsP)))))

/-- The multiline sentence-variety pattern. -/
def sentenceVarietyRE : RE :=
  catL [RE.group 1 (RE.alt (RE.lineStart true) (litCS ". ")),
        svChunk 2, wPlus, litCS ". ",
        svChunk 3, wPlus, litCS ". ",
        svChunk 4, wPlus, chrCS '.']

/-- Passive-voice pattern for a given auxiliary: aux, a word ending in ed
(captured), by, and the agent (captured). -/
def passiveRE (aux : String) : RE :=
  catL [RE.wordB, litCI aux, wsP, RE.group 1 (RE.cat wPlus (litCI "ed")), wsP,
        litCI "by", wsP, RE.group 2 wPlus]

/-- Filler-word pattern: boundary, the word, trailing whitespace. -/
def fillerRE (w : String) : RE := catL [RE.wordB, litCI w, wsP]

/-- The pretty-filler pattern with its negative lookahead (do not match
before a word ending in ly). -/
def prettyRE : RE :=
  catL [RE.wordB, litCI "pretty", wsP,
        RE.lookNeg (catL [RE.star false wordCls, litCI "ly", RE.wordB])]

/-- readabilityRules of the source (21 rules). -/
def readabilityRules : List Rule := [
  RA longSentenceRE ""
    "This sentence is quite long. Consider breaking it into shorter, clearer sentences for better readability."
    .readability .medium,
  R repeatedWordRE "$1" "Repeated word detected. Consider removing the duplicate." .readability .medium,
  R (bPhrase ["and", "and"]) "and"
    "Repeated \"and\" detected. Consider revising the sentence structure." .readability .low,
  R (bPhrase ["that", "that"]) "that"
    "Repeated \"that\" detected. Consider removing one for clarity." .readability .low,
  R (bPhrase ["the", "the"]) "the"
    "Repeated \"the\" detected. Consider removing the duplicate." .readability .medium,
  R veryRepRE "very "
    "Multiple \"very\" words detected. Consider using a stronger adjective instead." .style .low,
  RA sentenceVarietyRE ""
    "Multiple short sentences in a row. Consider combining some for better flow." .style .low,
  R (passiveRE "was") "$2 $1"
    "Passive voice detected. Consider active voice: \"$2 $1\"" .style .low,
  R (passiveRE "were") "$2 $1"
    "Passive voice detected. Consider active voice: \"$2 $1\"" .style .low,
  R (passiveRE "is") "$2 $1s"
    "Passive voice detected. Consider active voice: \"$2 $1s\"" .style .low,
  R (fillerRE "really") "" "Consider removing \"really\" to make your writing more concise." .style .low,
  R (fillerRE "actually") "" "Consider removing \"actually\" to make your writing more concise." .style .low,
  R (fillerRE "basically") "" "Consider removing \"basically\" to make your writing more concise." .style .low,
  R (fillerRE "literally") "" "Consider removing \"literally\" unless used for literal meaning." .style .low,
  R (fillerRE "just") "" "Consider removing \"just\" to make your writing more direct." .style .low,
  R (fillerRE "simply") "" "Consider removing \"simply\" to make your writing more concise." .style .low,
  R (fillerRE "quite") "" "Consider removing \"quite\" or using a stronger adjective." .style .low,
  R (fillerRE "rather") "" "Consider removing \"rather\" or using a more specific word." .style .low,
  R (fillerRE "somewhat") "" "Consider removing \"somewhat\" or being more specific." .style .low,
  R (fillerRE "fairly") "" "Consider removing \"fairly\" or using a stronger adjective." .style .low,
  R prettyRE "" "Consider removing \"pretty\" or using a more specific adjective." .style .low
]

/-- punctuationRules of the source (7 rules, no i flag). -/
def punctuationRules : List Rule := [
  R (RE.cat wsP (chrCS ',')) "," "Remove space before comma" .grammar .medium,
  R (RE.cat wsP (chrCS '.')) "." "Remove space before period" .grammar .medium,
  R (RE.cat (chrCS ',') (RE.group 1 (RE.cls (fun c => !jsIsSpace c)))) ", $1"
    "Add space after comma" .grammar .medium,
  R (RE.cat (chrCS '.') (RE.group 1 wordCls)) ". $1" "Add space after period" .grammar .medium,
  R (RE.cat (repn (RE.cls jsIsSpace) 2) (RE.star false (RE.cls jsIsSpace))) " "
    "Remove extra spaces" .style .low,
  R (RE.cat (repn (chrCS '\n') 3) (RE.star false (chrCS '\n'))) "\n\n"
    "Remove extra line breaks" .style .low,
  R (catL [RE.group 1 (RE.cls isSentEnd), RE.star false (RE.cls jsIsSpace),
           RE.group 2 (RE.cls (fun c => 'a' ≤ c && c ≤ 'z'))]) "$1 $2"
    "Capitalize the first word after a sentence-ending punctuation" .grammar .medium
]

/-- commonPhraseRules of the source (6 rules). -/
def commonPhraseRules : List Rule := [
  R (bPhrase ["on", "a", "daily", "basis"]) "daily"
    "Consider using \"daily\" instead of \"on a daily basis\" for conciseness" .style .low,
  R (bPhrase ["first", "and", "foremost"]) "first"
    "Consider using \"first\" instead of \"first and foremost\" for conciseness" .style .low,
  R (bPhrase ["free", "gift"]) "gift"
    "A gift is already free by definition. Consider using just \"gift\"" .style .low,
  R (bPhrase ["future", "plans"]) "plans"
    "Plans are for the future by definition. Consider using just \"plans\"" .style .low,
  R (bPhrase ["unexpected", "surprise"]) "surprise"
    "A surprise is unexpected by definition. Consider using just \"surprise\"" .style .low,
  R (bPhrase ["close", "proximity"]) "proximity"
    "Proximity implies closeness. Consider using just \"proximity\"" .style .low
]

/-- The concatenation checkText builds, in source order. -/
def allRules : List Rule :=
  grammarRules ++ spellingRules ++ styleRules ++ readabilityRules ++
  punctuationRules ++ commonPhraseRules

/-! ### checkText (src/utils/grammarChecker.ts lines 735-816) -/

/-- Replace every occurrence of the two-character sequence dollar-one in the
template by the capture string (the regex replace of the source). -/
def subDollar1 : List Char → List Char → List Char
  | [], _ => []
  | '$' :: '1' :: rest, cap => cap ++ subDollar1 rest cap
  | c :: rest, cap => c :: subDollar1 rest cap

/-- The capture string match[1] with the JS or-default of the empty string
(an unset group is undefined, hence falsy). -/
def cap1String (t : List Char) (m : RMatch) : List Char :=
  match capLookup m.caps 1 with
  | some (a, b) => extractL t a b
  | none => []

/-- The replacement text of a suggestion:
template.replace(dollar-one, match[1] or empty).trim() or-else match[0]. -/
def ruleSuggestionText (rule : Rule) (t : List Char) (m : RMatch) : String :=
  let matched := extractL t m.pos m.stop
  let subbed := trimL (subDollar1 rule.template.data (cap1String t m))
  String.mk (if subbed.isEmpty then matched else subbed)

/-- Build the suggestion record for the k-th created suggestion of one
invocation (`ids k` stands for the fresh Date.now/Math.random suffix). -/
def mkSuggestion (ids : Nat → String) (k : Nat) (ruleIdx : Nat) (rule : Rule)
    (t : List Char) (m : RMatch) : GrammarSuggestion :=
  { id := Nat.repr ruleIdx ++ "-" ++ Nat.repr m.pos ++ "-" ++ ids k,
    type := rule.type,
    start := Int.ofNat m.pos,
    endPos := Int.ofNat m.stop,
    original := String.mk (extractL t m.pos m.stop),
    suggestion := ruleSuggestionText rule t m,
    message := rule.message,
    severity := rule.severity }

/-- The matches one rule contributes: all of them for a global regex, only
the first otherwise (the source breaks out of the loop then). -/
def ruleMatches (rule : Rule) (t : List Char) : List RMatch :=
  if rule.global then execAll t rule.re else (execFirst t rule.re).toList

/-- All (rule index, rule, match) triples in creation order: the outer
forEach over the rule table, the inner exec loop. -/
def rawItems (t : List Char) : List (Nat × Rule × RMatch) :=
  allRules.enum.flatMap (fun p => (ruleMatches p.2 t).map (fun m => (p.1, p.2, m)))

/-- The suggestions array before deduplication and sorting, each record
numbered in creation order for its id suffix. -/
def rawSuggestions (ids : Nat → String) (t : List Char) : List GrammarSuggestion :=
  (rawItems t).enum.map (fun q => mkSuggestion ids q.1 q.2.1 q.2.2.1 t q.2.2.2)

/-- The span comparison of the dedup filter. -/
def sameSpanB (a b : GrammarSuggestion) : Bool :=
  a.start == b.start && a.endPos == b.endPos

/-- The dedup filter of the source: keep an element exactly when the first
index holding its (start, end) span is its own index. -/
def dedupSpan (arr : List GrammarSuggestion) : List GrammarSuggestion :=
  (arr.enum.filter (fun p => arr.findIdx? (fun x => sameSpanB x p.2) == some p.1)).map
    (fun p => p.2)

/-- The comparator sort((a, b) => a.start - b.start) as a relation; the
source's sort is stable, as is insertion sort. -/
def sugLE (a b : GrammarSuggestion) : Prop := a.start ≤ b.start

instance : DecidableRel sugLE := fun a b => Int.decLe a.start b.start

instance : IsTotal GrammarSuggestion sugLE := ⟨fun a b => Int.le_total a.start b.start⟩

instance : IsTrans GrammarSuggestion sugLE := ⟨fun _ _ _ h1 h2 => le_trans h1 h2⟩

/-- checkText: empty or whitespace-only text short-circuits to the empty
list; otherwise collect every rule match, deduplicate identical spans and
sort ascending by start. -/
def checkText (ids : Nat → String) (text : String) : List GrammarSuggestion :=
  if jsTrim text = "" then []
  else List.insertionSort sugLE (dedupSpan (rawSuggestions ids text.data))

/-! ### applySuggestion (src/utils/grammarChecker.ts lines 818-969) -/

/-- String.prototype.startsWith on character lists. -/
def startsWithL (l pat : List Char) : Bool := pat.isPrefixOf l

/-- String.prototype.endsWith on character lists. -/
def endsWithL (l pat : List Char) : Bool := pat.isSuffixOf l

/-- The advisory filter at the top of applySuggestion. -/
def isAdvisory (s : GrammarSuggestion) : Bool :=
  s.suggestion == "" ||
  jsTrim s.suggestion == "" ||
  s.suggestion == s.original ||
  (startsWithL s.suggestion.data "[".data && endsWithL s.suggestion.data "]".data) ||
  containsL (lowerL s.suggestion.data) "consider".data ||
  containsL (lowerL s.suggestion.data) "try to".data ||
  containsL (lowerL s.suggestion.data) "you might".data

/-- The JS dot (any character but a line terminator). -/
def dotCls : RE := RE.cls (fun c => !(c == '\n' || c == '\r'))

/-- The fuzzy key-word regex of fallback 4: the escaped key words joined by
lazy dot-star, with the i flag. -/
def fuzzyRE : List (List Char) → RE
  | [] => RE.eps
  | [w] => catL (w.map chrCI)
  | w :: rest => RE.cat (catL (w.map chrCI)) (RE.cat (RE.star true dotCls) (fuzzyRE rest))

/-- The word-boundary regex of fallback 5 for a single-token original. -/
def wordBoundaryRE (orig : List Char) : RE :=
  catL [RE.wordB, catL (orig.map chrCI), RE.wordB]

/-- Splice `mid` over positions `a` to `b` of `t`:
t.substring(0, a) + mid + t.substring(b). -/
def spliceL (t : List Char) (a b : Nat) (mid : List Char) : List Char :=
  t.take a ++ mid ++ t.drop b

/-- Cut `t` into the chunks between the listed separator matches
(String.prototype.split with a regex separator holding no capture group). -/
def cutChunks (t : List Char) : Nat → List RMatch → List (List Char)
  | start, [] => [extractL t start t.length]
  | start, m :: rest => extractL t start m.pos :: cutChunks t m.stop rest

/-- String.prototype.split with a regex separator. -/
def jsSplitL (t : List Char) (re : RE) : List (List Char) :=
  cutChunks t 0 (execAll t re)

/-- split(/\s+/) on a character list. -/
def jsSplitWs (t : List Char) : List (List Char) := jsSplitL t wsP

/-- Fallback 6 of applySuggestion: whole-document replacement when the
span covers (approximately) the entire text; otherwise the unchanged text. -/
def applyFallback6 (text : String) (s : GrammarSuggestion) : String :=
  if s.start == 0 && s.endPos ≥ (text.data.length : Int) - 2 then s.suggestion
  else text

/-- Fallback 5 of applySuggestion: word-boundary search for a single-token
original longer than two characters. -/
def applyFallback5 (text : String) (s : GrammarSuggestion) : String :=
  let t := text.data
  let orig := s.original.data
  if !(orig.contains ' ') && orig.length > 2 then
    match execFirst t (wordBoundaryRE orig) with
    | some m => String.mk (spliceL t m.pos m.stop s.suggestion.data)
    | none => applyFallback6 text s
  else applyFallback6 text s

/-- Fallback 4 of applySuggestion: fuzzy key-word search for multi-word
originals. -/
def applyFallback4 (text : String) (s : GrammarSuggestion) : String :=
  let t := text.data
  let words := (jsSplitWs s.original.data).filter (fun w => w.length > 0)
  if words.length > 1 then
    let keyWords := words.filter (fun w => w.length > 2)
    if keyWords.length > 0 then
      match execFirst t (fuzzyRE keyWords) with
      | some m => String.mk (spliceL t m.pos m.stop s.suggestion.data)
      | none => applyFallback5 text s
    else applyFallback5 text s
  else applyFallback5 text s

/-- Fallback 3 of applySuggestion: search for the trimmed original. -/
def applyFallback3 (text : String) (s : GrammarSuggestion) : String :=
  let t := text.data
  let trimmed := trimL s.original.data
  match firstIdxL t trimmed with
  | some i =>
      if 0 < trimmed.length then String.mk (spliceL t i (i + trimmed.length) s.suggestion.data)
      else applyFallback4 text s
  | none => applyFallback4 text s

/-- Fallbacks 1 and 2 of applySuggestion: exact, then case-insensitive
substring search. -/
def applyFallback12 (text : String) (s : GrammarSuggestion) : String :=
  let t := text.data
  let orig := s.original.data
  match firstIdxL t orig with
  | some i => String.mk (spliceL t i (i + orig.length) s.suggestion.data)
  | none =>
      match firstIdxL (lowerL t) (lowerL orig) with
      | some i => String.mk (spliceL t i (i + orig.length) s.suggestion.data)
      | none => applyFallback3 text s

/-- applySuggestion: the advisory filter, then the exact-position splice,
then the cascade of fallbacks (exact search, case-insensitive search,
trimmed search, fuzzy key-word search, word-boundary search, whole-document
replacement), and finally the unchanged text. -/
def applySuggestion (text : String) (s : GrammarSuggestion) : String :=
  let t := text.data
  if isAdvisory s then text
  else if 0 ≤ s.start && s.endPos ≤ (t.length : Int) && s.start < s.endPos then
    let a := s.start.toNat
    let b := s.endPos.toNat
    if jsSubstringL t a b == s.original.data then String.mk (spliceL t a b s.suggestion.data)
    else applyFallback12 text s
  else applyFallback12 text s

/-! ### getTextStats and the analysis aggregator (src/utils/advancedAnalysis.ts) -/

/-- The separator [.!?]+ of the sentence split. -/
def sentSepPlusRE : RE := rplus (RE.cls isSentEnd)

/-- The single-character separator [.!?] used for first/last sentence. -/
def sentSingleRE : RE := RE.cls isSentEnd

/-- The paragraph separator: newline, optional whitespace, newline. -/
def paraSepRE : RE := catL [chrCS '\n', RE.star false (RE.cls jsIsSpace), chrCS '\n']

/-- The passive-voice indicator pattern of calculateClarityScore. -/
def passiveIndicatorsRE : RE :=
  catL [RE.wordB,
        RE.group 1 (altsL [litCI "was", litCI "were", litCI "been", litCI "being"]),
        wsP, wPlus, litCI "ed", RE.wordB]

/-- The engaging-vocabulary pattern of calculateEngagementScore. -/
def engagingWordsRE : RE :=
  catL [RE.wordB,
        RE.group 1 (altsL (["amazing", "incredible", "fascinating", "discover", "reveal",
                            "secret", "powerful", "transform", "breakthrough"].map litCI)),
        RE.wordB]

/-- The filler-word pattern of calculateEngagementScore. -/
def fillerWordsRE : RE :=
  catL [RE.wordB,
        RE.group 1 (altsL (["very", "really", "quite", "rather", "fairly", "pretty",
                            "somewhat", "kind of", "sort of"].map litCI)),
        RE.wordB]

/-- The transition-word pattern of calculateDeliveryScore. -/
def transitionWordsRE : RE :=
  catL [RE.wordB,
        RE.group 1 (altsL (["however", "therefore", "furthermore", "moreover", "consequently",
                            "additionally", "meanwhile", "nevertheless"].map litCI)),
        RE.wordB]

/-- The professional-vocabulary pattern of calculateDeliveryScore. -/
def professionalWordsRE : RE :=
  catL [RE.wordB,
        RE.group 1 (altsL (["analyze", "implement", "evaluate", "demonstrate", "establish",
                            "facilitate", "optimize"].map litCI)),
        RE.wordB]

/-- The word-token pattern boundary-w-plus-boundary. -/
def wordTokenRE : RE := catL [RE.wordB, wPlus, RE.wordB]

/-- An exact, unnormalized fraction: JS float arithmetic in the analysis
heuristics is modelled by exact fraction arithmetic (every value arising
there is exactly representable; all produced denominators are positive).
Plain integer pairs are used rather than Rat so that every computation
reduces inside the kernel. -/
structure Frac where
  num : Int
  den : Int
deriving DecidableEq

/-- An integer as a fraction. -/
def fOfInt (n : Int) : Frac := ⟨n, 1⟩

/-- A natural count as a fraction. -/
def fOfNat (n : Nat) : Frac := ⟨Int.ofNat n, 1⟩

/-- Fraction addition. -/
def fAdd (a b : Frac) : Frac := ⟨a.num * b.den + b.num * a.den, a.den * b.den⟩

/-- Fraction subtraction. -/
def fSub (a b : Frac) : Frac := ⟨a.num * b.den - b.num * a.den, a.den * b.den⟩

/-- Fraction multiplication. -/
def fMul (a b : Frac) : Frac := ⟨a.num * b.num, a.den * b.den⟩

/-- Fraction division. -/
def fDiv (a b : Frac) : Frac := ⟨a.num * b.den, a.den * b.num⟩

/-- Strict comparison (cross-multiplied; valid for positive denominators,
the only ones that arise). -/
def fLtB (a b : Frac) : Bool := decide (a.num * b.den < b.num * a.den)

/-- Non-strict comparison. -/
def fLeB (a b : Frac) : Bool := decide (a.num * b.den ≤ b.num * a.den)

/-- Math.min. -/
def fMinQ (a b : Frac) : Frac := if fLeB a b then a else b

/-- Math.max. -/
def fMaxQ (a b : Frac) : Frac := if fLeB a b then b else a

/-- Math.round: the floor of x plus one half (JS rounds half towards plus
infinity); Int division is Euclidean, hence floor for the positive
denominators that arise. -/
def jsRound (x : Frac) : Int := (2 * x.num + x.den) / (2 * x.den)

/-- The value of a fraction. -/
def toRat (a : Frac) : ℚ := (a.num : ℚ) / (a.den : ℚ)

/-- The comparison count/den > bound under JS division semantics: a zero
denominator gives NaN (all comparisons false) for a zero numerator and
plus-Infinity (greater than any bound) for a positive one; otherwise the
comparison bnum/bden < num/den, cross-multiplied. -/
def jsDivGt (num den : Nat) (bnum bden : Int) : Bool :=
  if den == 0 then decide (0 < num)
  else decide (bnum * (den : Int) < (num : Int) * bden)

/-- The clarity test avg < 20 or avg > 150 under the same JS division
semantics, cross-multiplied. -/
def jsRatioOutsideClarity (num den : Nat) : Bool :=
  if den == 0 then decide (0 < num)
  else (decide ((num : Int) < 20 * (den : Int)) || decide (150 * (den : Int) < (num : Int)))

/-- The record getTextStats returns (readabilityScore clamped and rounded,
avgWordsPerSentence rounded to one decimal, as in the source). -/
structure TextStats where
  words : Nat
  characters : Nat
  charactersNoSpaces : Nat
  sentences : Nat
  paragraphs : Nat
  avgWordsPerSentence : Frac
  readabilityScore : Int
deriving DecidableEq

/-- getTextStats of src/utils/grammarChecker.ts lines 971-1007. -/
def getTextStats (text : String) : TextStats :=
  if jsTrim text = "" then
    { words := 0, characters := 0, charactersNoSpaces := 0, sentences := 0,
      paragraphs := 0, avgWordsPerSentence := fOfInt 0, readabilityScore := 100 }
  else
    let t := text.data
    let words := (jsSplitWs (trimL t)).filter (fun w => w.length > 0)
    let sentences := (jsSplitL t sentSepPlusRE).filter (fun s => (trimL s).length > 0)
    let characters := t.length
    let charactersNoSpaces := (t.filter (fun c => !jsIsSpace c)).length
    let paragraphs := (jsSplitL t paraSepRE).filter (fun p => (trimL p).length > 0)
    let avgWordsPerSentence : Frac :=
      if sentences.length > 0 then fDiv (fOfNat words.length) (fOfNat sentences.length)
      else fOfInt 0
    let avgCharsPerWord : Frac :=
      if words.length > 0 then fDiv (fOfNat charactersNoSpaces) (fOfNat words.length)
      else fOfInt 0
    let readability : Frac :=
      if sentences.length > 0 && words.length > 0 then
        fSub (fSub ⟨206835, 1000⟩ (fMul ⟨1015, 1000⟩ avgWordsPerSentence))
          (fDiv (fMul ⟨846, 10⟩ avgCharsPerWord) ⟨47, 10⟩)
      else fOfInt 100
    { words := words.length, characters := characters,
      charactersNoSpaces := charactersNoSpaces, sentences := sentences.length,
      paragraphs := paragraphs.length,
      avgWordsPerSentence := ⟨jsRound (fMul avgWordsPerSentence (fOfInt 10)), 10⟩,
      readabilityScore := max 0 (min 100 (jsRound readability)) }

/-- calculateCorrectnessScore: penalize grammar and spelling suggestions
proportionally to the whitespace-token count (note: an empty trimmed text
still splits into one empty token in JS, so words is never zero). -/
def calculateCorrectnessScore (text : String) (suggestions : List GrammarSuggestion) : Int :=
  let grammarErrors := suggestions.filter (fun s => s.type == SugType.grammar || s.type == SugType.spelling)
  let words := (jsSplitWs (jsTrim text).data).length
  if words == 0 then 100
  else
    let errorRate : Frac := fDiv (fOfNat grammarErrors.length) (fOfNat words)
    jsRound (fMaxQ (fOfInt 0) (fSub (fOfInt 100) (fMul errorRate (fOfInt 200))))

/-- The long-sentence penalty step of calculateClarityScore (score starts
at 100). -/
def clarityS2 (stats : TextStats) : Frac :=
  if fLtB (fOfInt 25) stats.avgWordsPerSentence
  then fSub (fOfInt 100)
    (fMinQ (fOfInt 30) (fMul (fSub stats.avgWordsPerSentence (fOfInt 25)) (fOfInt 2)))
  else fOfInt 100

/-- The paragraph-length penalty step. -/
def clarityS3 (stats : TextStats) : Frac :=
  if jsRatioOutsideClarity stats.words stats.paragraphs
  then fSub (clarityS2 stats) (fOfInt 10) else clarityS2 stats

/-- The readability bonus step (not clamped above). -/
def clarityS4 (stats : TextStats) : Frac :=
  if (60 : Int) < stats.readabilityScore then fAdd (clarityS3 stats) (fOfInt 5)
  else clarityS3 stats

/-- The passive-voice penalty step. -/
def clarityS5 (text : String) (stats : TextStats) : Frac :=
  if jsDivGt (execAll text.data passiveIndicatorsRE).length stats.sentences 3 10
  then fSub (clarityS4 stats) (fOfInt 15) else clarityS4 stats

/-- calculateClarityScore: starts at 100, penalizes long sentences, extreme
paragraph lengths and passive voice, and adds an unclamped 5-point bonus
for readability above 60; only the lower end is clamped in the source. -/
def calculateClarityScore (text : String) (stats : TextStats) : Int :=
  max 0 (jsRound (clarityS5 text stats))

/-- calculateVariance of the source. -/
def calculateVariance (numbers : List Frac) : Frac :=
  if numbers.length == 0 then fOfInt 0
  else
    let mean := fDiv (numbers.foldl fAdd (fOfInt 0)) (fOfNat numbers.length)
    let squaredDiffs := numbers.map (fun n => fMul (fSub n mean) (fSub n mean))
    fDiv (squaredDiffs.foldl fAdd (fOfInt 0)) (fOfNat numbers.length)

/-- calculateEngagementScore. -/
def calculateEngagementScore (text : String) (stats : TextStats) : Int :=
  let t := text.data
  let sentences := (jsSplitL t sentSepPlusRE).filter (fun s => (trimL s).length > 0)
  let sentenceLengths := sentences.map (fun s => fOfNat (jsSplitWs (trimL s)).length)
  let lengthVariance := calculateVariance sentenceLengths
  let s1 : Frac := if fLtB (fOfInt 20) lengthVariance then fAdd (fOfInt 70) (fOfInt 15)
                   else if fLtB lengthVariance (fOfInt 5) then fSub (fOfInt 70) (fOfInt 10)
                   else fOfInt 70
  let questions := t.countP (fun c => c == '?')
  let exclamations := t.countP (fun c => c == '!')
  let engaging := (execAll t engagingWordsRE).length
  let s2a := fAdd s1 (fMinQ (fOfInt 10) (fMul (fOfNat questions) (fOfInt 2)))
  let s2b := fAdd s2a (fMinQ (fOfInt 5) (fOfNat exclamations))
  let s2c := fAdd s2b (fMinQ (fOfInt 10) (fOfNat engaging))
  let fillerCount := (execAll t fillerWordsRE).length
  let s3 := if jsDivGt fillerCount stats.words 5 100 then fSub s2c (fOfInt 15) else s2c
  max 0 (min 100 (jsRound s3))

/-- calculateDeliveryScore. -/
def calculateDeliveryScore (text : String) (stats : TextStats) : Int :=
  let t := text.data
  let chunks := jsSplitL t sentSingleRE
  let firstSentence := chunks.headD []
  let s1 : Frac := fOfInt 80
  let s2 := if !firstSentence.isEmpty && decide (10 < firstSentence.length)
            then fAdd s1 (fOfInt 5) else s1
  let lastSentence := (chunks.filter (fun s => (trimL s).length > 0)).getLast?
  let s3 := match lastSentence with
            | some l => if !l.isEmpty && decide (10 < l.length) then fAdd s2 (fOfInt 5) else s2
            | none => s2
  let transitions := (execAll t transitionWordsRE).length
  let s4 := if jsDivGt transitions stats.sentences 1 10 then fAdd s3 (fOfInt 10) else s3
  let lowerT := lowerL t
  let words := (execAll lowerT wordTokenRE).map (fun m => extractL lowerT m.pos m.stop)
  let longWords := words.filter (fun w => w.length > 4)
  let repeatedWords := longWords.dedup.countP (fun w => longWords.count w > 3)
  let s5 := fSub s4 (fMinQ (fOfInt 20) (fMul (fOfNat repeatedWords) (fOfInt 3)))
  let professional := (execAll t professionalWordsRE).length
  let s6 := fAdd s5 (fMinQ (fOfInt 10) (fOfNat professional))
  max 0 (min 100 (jsRound s6))

/-- The four sub-scores and the overall score. -/
structure DetailedScore where
  overall : Int
  correctness : Int
  clarity : Int
  engagement : Int
  delivery : Int
deriving DecidableEq

/-- The part of the AnalysisReport the claims are about (the improvements,
strengths, readability-level and tone strings of the source are
informational text derived from these fields and are not modelled). -/
structure AnalysisReport where
  score : DetailedScore
  suggestions : List GrammarSuggestion
  textStats : TextStats
deriving DecidableEq

/-- analyzeText of src/utils/advancedAnalysis.ts lines 26-62. -/
def analyzeText (ids : Nat → String) (text : String) : AnalysisReport :=
  let suggestions := checkText ids text
  let textStats := getTextStats text
  let correctnessScore := calculateCorrectnessScore text suggestions
  let clarityScore := calculateClarityScore text textStats
  let engagementScore := calculateEngagementScore text textStats
  let deliveryScore := calculateDeliveryScore text textStats
  let overallScore :=
    jsRound (fDiv (fOfInt (correctnessScore + clarityScore + engagementScore + deliveryScore)) (fOfInt 4))
  { score := { overall := overallScore, correctness := correctnessScore,
               clarity := clarityScore, engagement := engagementScore,
               delivery := deliveryScore },
    suggestions := suggestions, textStats := textStats }

/-! ### The AI response validation pipeline (src/utils/aiGrammarChecker.ts) -/

/-- One parsed entry of the AI response array (OpenAISuggestion of the
source).  `original`, `suggestion`, `start_pos` and `end_pos` are optional:
`none` models a missing field (for the two numbers, also a non-number). -/
structure OpenAISuggestion where
  original : Option String
  suggestion : Option String
  reason : String
  type : SugType
  severity : Severity
  start_pos : Option Int
  end_pos : Option Int
deriving DecidableEq

/-- The user-feedback statistics read from the suggestion feedback store
(getFeedbackStats); an input of the pipeline here since the store lives
outside this module. -/
structure FeedbackStats where
  commonAccepted : List String
  commonRejected : List String
  acceptanceRate : SugType → Option Frac

/-- JS truthiness of an optional string field (undefined and the empty
string are falsy). -/
def truthyS : Option String → Bool
  | none => false
  | some s => !(s == "")

/-- The first validation filter of checkTextWithAI: required fields present
and truthy, positions numbers with 0 <= start_pos < end_pos <= text length. -/
def validEntry (len : Nat) (e : OpenAISuggestion) : Bool :=
  truthyS e.original && truthyS e.suggestion &&
  (match e.start_pos, e.end_pos with
   | some sp, some ep => decide (0 ≤ sp) && decide (ep ≤ (len : Int)) && decide (sp < ep)
   | _, _ => false)

/-- The map step of checkTextWithAI: re-validate, verify the positions
against the text, relocate via indexOf on a mismatch, and build the
suggestion record (`none` models the null the source then filters out).
`k` is the index in the filtered array, used for the id. -/
def convertEntry (ids : Nat → String) (t : List Char) (k : Nat)
    (e : OpenAISuggestion) : Option GrammarSuggestion :=
  match e.original, e.suggestion, e.start_pos, e.end_pos with
  | some orig, some sugg, some sp, some ep =>
      if orig == "" || sugg == "" then none
      else
        let actual := jsSubstringL t sp.toNat ep.toNat
        let span : Option (Nat × Nat) :=
          if actual == orig.data then some (sp.toNat, ep.toNat)
          else
            match firstIdxL t orig.data with
            | some i => some (i, i + orig.data.length)
            | none => none
        match span with
        | some (a, b) =>
            some { id := "ai-" ++ Nat.repr k ++ "-" ++ ids k, type := e.type,
                   start := Int.ofNat a, endPos := Int.ofNat b, original := orig,
                   suggestion := sugg, message := e.reason, severity := e.severity }
        | none => none
  | _, _, _, _ => none

/-- The acceptance rate used by the personalization sort, with the JS
or-default of 50 (a stored rate of 0 is falsy and also falls back to 50). -/
def rateOf (stats : FeedbackStats) (s : GrammarSuggestion) : Frac :=
  match stats.acceptanceRate s.type with
  | some v => if v.num == 0 then fOfInt 50 else v
  | none => fOfInt 50

/-- The comparator (a, b) => bRate - aRate as a relation (descending by
acceptance rate; the sort is stable). -/
def rateRel (stats : FeedbackStats) (a b : GrammarSuggestion) : Prop :=
  fLeB (rateOf stats b) (rateOf stats a) = true

instance (stats : FeedbackStats) : DecidableRel (rateRel stats) := fun a b =>
  inferInstanceAs (Decidable (fLeB (rateOf stats b) (rateOf stats a) = true))

/-- The personalization filter: drop a suggestion whose replacement text
contains (case-insensitively) a commonly rejected phrase. -/
def isCommonlyRejected (stats : FeedbackStats) (s : GrammarSuggestion) : Bool :=
  stats.commonRejected.any (fun rej => containsL (lowerL s.suggestion.data) (lowerL rej.data))

/-- The pure validation/conversion pipeline of checkTextWithAI
(src/utils/aiGrammarChecker.ts lines 253-352), applied to the already
parsed response array: the bounds filter, the conversion map with
relocation, the null filter, the identity spread of new Set over fresh
objects, the stable sort by acceptance rate and the rejected-phrase filter.
The surrounding network, timeout and JSON-parse failure handling of the
source returns the empty list before this pipeline is reached. -/
def checkTextWithAI (stats : FeedbackStats) (ids : Nat → String) (text : String)
    (aiSuggestions : List OpenAISuggestion) : List GrammarSuggestion :=
  let t := text.data
  let filteredSuggestions := aiSuggestions.filter (validEntry t.length)
  let suggestions := (filteredSuggestions.enum.map (fun p => convertEntry ids t p.1 p.2)).reduceOption
  let uniqueSuggestions := suggestions
  (List.insertionSort (rateRel stats) uniqueSuggestions).filter
    (fun s => !isCommonlyRejected stats s)

/-! ### Engine lemmas: every match stays inside the text and consumes at
least `minLen` characters -/

theorem ciPrefixAt_le {t : List Char} {ci : Bool} :
    ∀ {pat : List Char} {p : Nat}, p ≤ t.length → ciPrefixAt t p pat ci = true →
      p + pat.length ≤ t.length := by
  intro pat
  induction pat with
  | nil => intro p hp _; simpa using hp
  | cons c rest ih =>
      intro p hp h
      unfold ciPrefixAt at h
      cases hg : t[p]? with
      | none => rw [hg] at h; exact absurd h (by simp)
      | some d =>
          rw [hg] at h
          have hlt : p < t.length := by
            by_contra hge
            exact absurd hg (by simp [List.getElem?_eq_none (Nat.le_of_not_lt hge)])
          have h2 := (Bool.and_eq_true _ _).mp h |>.2
          have := ih (p := p + 1) hlt h2
          simp only [List.length_cons]
          omega

theorem mem_of_head?_eq_some {α : Type} {l : List α} {a : α} (h : l.head? = some a) :
    a ∈ l := by
  cases l with
  | nil => simp at h
  | cons b rest => simp at h; simp [h]

theorem mtchStep_bounds (t : List Char)
    (deeper : RE → Nat → Caps → List (Nat × Caps))
    (hd : ∀ re p cs, p ≤ t.length → ∀ x ∈ deeper re p cs, p ≤ x.1 ∧ x.1 ≤ t.length) :
    ∀ re p cs, p ≤ t.length → ∀ x ∈ mtchStep t deeper re p cs,
      p + minLen re ≤ x.1 ∧ x.1 ≤ t.length := by
  intro re
  induction re with
  | eps => intro p cs hp x hx; simp [mtchStep] at hx; simp [hx, minLen, hp]
  | cls f =>
      intro p cs hp x hx
      simp only [mtchStep] at hx
      cases hg : t[p]? with
      | none => rw [hg] at hx; simp at hx
      | some c =>
          rw [hg] at hx
          have hlt : p < t.length := by
            by_contra hge
            exact absurd hg (by simp [List.getElem?_eq_none (Nat.le_of_not_lt hge)])
          by_cases hf : f c = true
          · simp [hf] at hx; simp [hx, minLen]; omega
          · simp [hf] at hx
  | cat r1 r2 ih1 ih2 =>
      intro p cs hp x hx
      simp only [mtchStep, List.mem_flatMap] at hx
      obtain ⟨y, hy, hx2⟩ := hx
      have h1 := ih1 p cs hp y hy
      have h2 := ih2 y.1 y.2 h1.2 x hx2
      simp only [minLen]
      omega
  | alt r1 r2 ih1 ih2 =>
      intro p cs hp x hx
      simp only [mtchStep, List.mem_append] at hx
      rcases hx with hx | hx
      · have := ih1 p cs hp x hx; simp only [minLen]; omega
      · have := ih2 p cs hp x hx; simp only [minLen]; omega
  | star lz r ih =>
      intro p cs hp x hx
      simp only [mtchStep] at hx
      by_cases hlz : lz
      · simp [hlz] at hx
        rcases hx with hx | hx
        · subst hx; refine ⟨?_, hp⟩; simp [minLen]
        · obtain ⟨a, b, ⟨hy, _⟩, hx2⟩ := hx
          have h1 := ih p cs hp (a, b) hy
          have h2 := hd _ a b h1.2 x hx2
          simp only [minLen]
          omega
      · simp [hlz] at hx
        rcases hx with hx | hx
        · obtain ⟨a, b, ⟨hy, _⟩, hx2⟩ := hx
          have h1 := ih p cs hp (a, b) hy
          have h2 := hd _ a b h1.2 x hx2
          simp only [minLen]
          omega
        · subst hx; refine ⟨?_, hp⟩; simp [minLen]
  | group i r ih =>
      intro p cs hp x hx
      simp only [mtchStep, List.mem_map] at hx
      obtain ⟨y, hy, hx2⟩ := hx
      have := ih p cs hp y hy
      simp only [minLen]
      rw [← hx2] at *
      simp_all
  | backref i ci =>
      intro p cs hp x hx
      simp only [mtchStep] at hx
      cases hc : capLookup cs i with
      | none => rw [hc] at hx; simp at hx; simp [hx, minLen, hp]
      | some ab =>
          rw [hc] at hx
          obtain ⟨a, b⟩ := ab
          by_cases hci : ciPrefixAt t p (extractL t a b) ci = true
          · simp [hci] at hx
            have := ciPrefixAt_le hp hci
            simp [hx, minLen]
            omega
          · simp [hci] at hx
  | wordB =>
      intro p cs hp x hx
      simp only [mtchStep] at hx
      by_cases hb : boundaryAt t p = true
      · simp [hb] at hx; simp [hx, minLen, hp]
      · simp [hb] at hx
  | lineStart m =>
      intro p cs hp x hx
      simp only [mtchStep] at hx
      by_cases hb : lineStartAt t p m = true
      · simp [hb] at hx; simp [hx, minLen, hp]
      · simp [hb] at hx
  | lookNeg r ih =>
      intro p cs hp x hx
      simp only [mtchStep] at hx
      by_cases hb : (mtchStep t deeper r p cs).isEmpty = true
      · simp [hb] at hx; simp [hx, minLen, hp]
      · simp [hb] at hx

theorem mtchF_bounds (t : List Char) :
    ∀ fuel re p cs, p ≤ t.length → ∀ x ∈ mtchF t fuel re p cs,
      p + minLen re ≤ x.1 ∧ x.1 ≤ t.length := by
  intro fuel
  induction fuel with
  | zero => intro re p cs _ x hx; simp [mtchF] at hx
  | succ n ih =>
      intro re p cs hp x hx
      exact mtchStep_bounds t (mtchF t n)
        (fun re2 p2 cs2 hp2 y hy => ⟨by have := ih re2 p2 cs2 hp2 y hy; omega,
                                     (ih re2 p2 cs2 hp2 y hy).2⟩)
        re p cs hp x hx

theorem scanFrom_sound {t : List Char} {re : RE} {m : RMatch} :
    ∀ {f p : Nat}, p ≤ t.length → scanFrom t re f p = some m →
      m.pos ≤ t.length ∧ (m.stop, m.caps) ∈ mtchF t (mfuel t) re m.pos [] := by
  intro f
  induction f with
  | zero => intro p _ h; simp [scanFrom] at h
  | succ n ih =>
      intro p hp h
      unfold scanFrom at h
      cases hh : (mtchF t (mfuel t) re p []).head? with
      | some x =>
          rw [hh] at h
          simp at h
          subst h
          exact ⟨hp, mem_of_head?_eq_some hh⟩
      | none =>
          rw [hh] at h
          by_cases hlt : p < t.length
          · simp [hlt] at h; exact ih hlt h
          · simp [hlt] at h

theorem execAllGo_sound {t : List Char} {re : RE} :
    ∀ {f i : Nat}, i ≤ t.length → ∀ m ∈ execAllGo t re f i,
      m.pos ≤ t.length ∧ (m.stop, m.caps) ∈ mtchF t (mfuel t) re m.pos [] := by
  intro f
  induction f with
  | zero => intro i _ m hm; simp [execAllGo] at hm
  | succ n ih =>
      intro i hi m hm
      unfold execAllGo at hm
      cases hs : scanFrom t re (t.length + 1 - i) i with
      | none => rw [hs] at hm; simp at hm
      | some m0 =>
          rw [hs] at hm
          have h0 := scanFrom_sound hi hs
          simp at hm
          rcases hm with hm | hm
          · subst hm; exact h0
          · have hstop : m0.stop ≤ t.length :=
              (mtchF_bounds t (mfuel t) re m0.pos [] h0.1 _ h0.2).2
            exact ih hstop m hm.2

theorem execAll_sound {t : List Char} {re : RE} {m : RMatch} (hm : m ∈ execAll t re) :
    m.pos + minLen re ≤ m.stop ∧ m.stop ≤ t.length := by
  have h := execAllGo_sound (Nat.zero_le _) m hm
  have hb := mtchF_bounds t (mfuel t) re m.pos [] h.1 _ h.2
  exact ⟨hb.1, hb.2⟩

theorem execFirst_sound {t : List Char} {re : RE} {m : RMatch}
    (hm : execFirst t re = some m) :
    m.pos + minLen re ≤ m.stop ∧ m.stop ≤ t.length := by
  have h := scanFrom_sound (Nat.zero_le _) hm
  have hb := mtchF_bounds t (mfuel t) re m.pos [] h.1 _ h.2
  exact ⟨hb.1, hb.2⟩

theorem ruleMatches_sound {rule : Rule} {t : List Char} {m : RMatch}
    (hm : m ∈ ruleMatches rule t) :
    m.pos + minLen rule.re ≤ m.stop ∧ m.stop ≤ t.length := by
  unfold ruleMatches at hm
  by_cases hg : rule.global
  · rw [if_pos hg] at hm; exact execAll_sound hm
  · rw [if_neg hg] at hm
    cases he : execFirst t rule.re with
    | none => rw [he] at hm; simp at hm
    | some m0 =>
        rw [he] at hm; simp at hm; subst hm
        exact execFirst_sound he

/-- Every rule pattern consumes at least one character (checked over the
whole rule table). -/
theorem allRules_minLen : ∀ rule ∈ allRules, 1 ≤ minLen rule.re := by
  have h : allRules.all (fun r => Nat.ble 1 (minLen r.re)) = true := by decide
  intro rule hr
  have := (List.all_eq_true.mp h) rule hr
  exact Nat.ble_eq.mp this

/-! ### Pipeline lemmas: from checkText membership back to a rule match -/

theorem mem_rawSuggestions {ids : Nat → String} {t : List Char} {s : GrammarSuggestion}
    (hs : s ∈ rawSuggestions ids t) :
    ∃ k ri rule m, allRules[ri]? = some rule ∧ m ∈ ruleMatches rule t ∧
      (ri, rule, m) ∈ rawItems t ∧ s = mkSuggestion ids k ri rule t m := by
  unfold rawSuggestions at hs
  simp only [List.mem_map] at hs
  obtain ⟨q, hq, hs2⟩ := hs
  have hq2 : (rawItems t)[q.1]? = some q.2 := List.mem_enum_iff_getElem?.mp hq
  have hmem : q.2 ∈ rawItems t := by
    have := List.getElem?_mem hq2
    exact this
  have hmem2 := hmem
  unfold rawItems at hmem
  simp only [List.mem_flatMap, List.mem_map] at hmem
  obtain ⟨p, hp, m, hm, hpm⟩ := hmem
  have hp2 : allRules[p.1]? = some p.2 := List.mem_enum_iff_getElem?.mp hp
  refine ⟨q.1, p.1, p.2, m, hp2, hm, ?_, ?_⟩
  · rw [hpm]; exact hmem2
  · rw [← hs2, ← hpm]

theorem mem_dedupSpan {arr : List GrammarSuggestion} {s : GrammarSuggestion}
    (hs : s ∈ dedupSpan arr) : s ∈ arr := by
  unfold dedupSpan at hs
  simp only [List.mem_map, List.mem_filter] at hs
  obtain ⟨p, ⟨hp, _⟩, hs2⟩ := hs
  have hq2 := List.mem_enum_iff_getElem?.mp hp
  have := List.getElem?_mem hq2
  rw [← hs2]
  exact this

theorem mem_checkText {ids : Nat → String} {text : String} {s : GrammarSuggestion}
    (hs : s ∈ checkText ids text) : s ∈ rawSuggestions ids text.data := by
  unfold checkText at hs
  by_cases he : jsTrim text = ""
  · rw [if_pos he] at hs; simp at hs
  · rw [if_neg he] at hs
    exact mem_dedupSpan ((List.mem_insertionSort sugLE).mp hs)

/-- C3: for every text t and every suggestion s yielded by checkText(t),
0 <= s.start < s.end <= len(t), and the slice t[s.start:s.end] equals
s.original (offset correctness at creation time). -/
theorem checkText_offset_correct (ids : Nat → String) (t : String) (s : GrammarSuggestion)
    (hs : s ∈ checkText ids t) :
    0 ≤ s.start ∧ s.start < s.endPos ∧ s.endPos ≤ (t.length : Int) ∧
      String.mk (extractL t.data s.start.toNat s.endPos.toNat) = s.original := by
  obtain ⟨k, ri, rule, m, hri, hm, hitem, hmk⟩ := mem_rawSuggestions (mem_checkText hs)
  have hrule : rule ∈ allRules := List.getElem?_mem hri
  have hb := ruleMatches_sound hm
  have h1 := allRules_minLen rule hrule
  subst hmk
  unfold mkSuggestion
  simp only [Int.toNat_ofNat]
  refine ⟨Int.ofNat_nonneg m.pos, ?_, ?_, rfl⟩
  · have h2 : m.pos < m.stop := by omega
    exact Int.ofNat_lt.mpr h2
  · have h2 : m.stop ≤ t.data.length := hb.2
    have hlen : t.length = t.data.length := rfl
    rw [hlen]
    exact Int.ofNat_le.mpr h2

theorem find?_eq_of_findIdx? {α : Type} {p : α → Bool} :
    ∀ {xs : List α} {i : Nat} {x : α}, xs.findIdx? p = some i → xs[i]? = some x →
      xs.find? p = some x := by
  intro xs
  induction xs with
  | nil => intro i x h _; simp at h
  | cons y ys ih =>
      intro i x h hx
      rw [List.findIdx?_cons] at h
      by_cases hp : p y
      · rw [if_pos hp] at h
        simp at h
        subst h
        simp at hx
        subst hx
        simp [List.find?_cons_of_pos _ hp]
      · rw [if_neg hp] at h
        rw [List.findIdx?_succ] at h
        cases hj : ys.findIdx? p with
        | none => rw [hj] at h; simp at h
        | some j =>
            rw [hj] at h
            simp at h
            subst h
            have hx2 : ys[j]? = some x := by simpa using hx
            rw [List.find?_cons_of_neg _ hp]
            exact ih hj hx2

theorem enumFrom_pairwise {α : Type} (l : List α) :
    ∀ n : Nat, (l.enumFrom n).Pairwise (fun a b => a.1 < b.1) := by
  induction l with
  | nil => intro n; simp
  | cons x xs ih =>
      intro n
      simp only [List.enumFrom]
      refine List.Pairwise.cons ?_ (ih (n+1))
      rintro ⟨i, a⟩ hb
      have := (List.mk_mem_enumFrom_iff_le_and_getElem?_sub.mp hb).1
      omega

theorem enum_pairwise {α : Type} (l : List α) :
    l.enum.Pairwise (fun a b => a.1 < b.1) := by
  have := enumFrom_pairwise l 0
  simpa [List.enum] using this

theorem sameSpanB_funext {s1 s2 : GrammarSuggestion} (h : sameSpanB s1 s2 = true) :
    (fun x => sameSpanB x s1) = (fun x => sameSpanB x s2) := by
  unfold sameSpanB at h ⊢
  simp only [Bool.and_eq_true, beq_iff_eq] at h
  funext x
  rw [h.1, h.2]

/-- A suggestion kept by the dedup filter is the first raw element with its
span. -/
theorem dedupSpan_find_first {arr : List GrammarSuggestion} {s : GrammarSuggestion}
    (hs : s ∈ dedupSpan arr) : arr.find? (fun x => sameSpanB x s) = some s := by
  unfold dedupSpan at hs
  simp only [List.mem_map, List.mem_filter] at hs
  obtain ⟨p, ⟨hp, hfi⟩, hs2⟩ := hs
  have hq2 : arr[p.1]? = some p.2 := List.mem_enum_iff_getElem?.mp hp
  subst hs2
  have hfi2 : arr.findIdx? (fun x => sameSpanB x p.2) = some p.1 := by
    simpa using hfi
  exact find?_eq_of_findIdx? hfi2 hq2

/-- The dedup filter leaves no two suggestions with an identical span. -/
theorem dedupSpan_pairwise (arr : List GrammarSuggestion) :
    (dedupSpan arr).Pairwise (fun a b => sameSpanB a b = false) := by
  unfold dedupSpan
  rw [List.pairwise_map]
  have h0 : (arr.enum.filter
      (fun p => arr.findIdx? (fun x => sameSpanB x p.2) == some p.1)).Pairwise
      (fun a b => a.1 < b.1) := (enum_pairwise arr).filter _
  refine h0.imp_of_mem ?_
  intro a b ha hb hlt
  have hfa : arr.findIdx? (fun x => sameSpanB x a.2) = some a.1 := by
    have := (List.mem_filter.mp ha).2; simpa using this
  have hfb : arr.findIdx? (fun x => sameSpanB x b.2) = some b.1 := by
    have := (List.mem_filter.mp hb).2; simpa using this
  by_contra hss
  simp only [Bool.not_eq_false] at hss
  rw [sameSpanB_funext hss] at hfa
  rw [hfa] at hfb
  simp at hfb
  omega

theorem sameSpanB_symm (a b : GrammarSuggestion) : sameSpanB a b = sameSpanB b a := by
  have hb : ∀ (x y : Int), (x == y) = (y == x) := by
    intro x y
    by_cases h : x = y
    · rw [h]
    · simp [h, Ne.symm h]
  unfold sameSpanB
  rw [hb a.start b.start, hb a.endPos b.endPos]

/-- C2: checkText output is sorted ascending by start, has no two
suggestions with an identical (start, end) span, and each kept suggestion
is the first raw suggestion with its span, the raw list being in
rule-table order (so the earliest rule wins a span). -/
theorem checkText_sorted_dedup_first (ids : Nat → String) (t : String) :
    List.Sorted sugLE (checkText ids t) ∧
    (checkText ids t).Pairwise (fun a b => sameSpanB a b = false) ∧
    ((checkText ids t).all (fun s =>
      (rawSuggestions ids t.data).find? (fun x => sameSpanB x s) == some s)) = true := by
  by_cases he : jsTrim t = ""
  · constructor
    · simp [checkText, he]
    · constructor
      · simp [checkText, he]
      · simp [checkText, he]
  · have hck : checkText ids t =
        List.insertionSort sugLE (dedupSpan (rawSuggestions ids t.data)) := by
      simp [checkText, he]
    refine ⟨?_, ?_, ?_⟩
    · rw [hck]; exact List.sorted_insertionSort sugLE _
    · rw [hck]
      have hperm := List.perm_insertionSort sugLE (dedupSpan (rawSuggestions ids t.data))
      exact hperm.symm.pairwise (dedupSpan_pairwise _)
        (fun {a b} h => by rw [sameSpanB_symm]; exact h)
    · rw [hck]
      rw [List.all_eq_true]
      intro s hs
      have hmem : s ∈ dedupSpan (rawSuggestions ids t.data) :=
        (List.mem_insertionSort sugLE).mp hs
      have := dedupSpan_find_first hmem
      simpa using this

/-- A fixed id oracle for concrete evaluations. -/
def ids0 : Nat → String := fun _ => "x"

/-- The suggestion checkText yields on "teh cat" (the teh spelling rule,
rule index 15, match at offset 0). -/
def tehSug : GrammarSuggestion :=
  { id := "15-0-x", type := SugType.spelling, start := 0, endPos := 3,
    original := "teh", suggestion := "the",
    message := "Spelling error: \"teh\" should be \"the\"", severity := Severity.high }

/-- C3 witness: the offsets theorem applied at the concrete text "teh cat"
and its concrete suggestion. -/
theorem checkText_offset_correct_witness :
    0 ≤ tehSug.start ∧ tehSug.start < tehSug.endPos ∧
      tehSug.endPos ≤ (("teh cat" : String).length : Int) ∧
      String.mk (extractL ("teh cat" : String).data tehSug.start.toNat tehSug.endPos.toNat) =
        tehSug.original :=
  checkText_offset_correct ids0 "teh cat" tehSug (by decide)

/-! ### C4: the advisory filter makes applySuggestion the identity -/

theorem applySuggestion_id_of_advisory {t : String} {s : GrammarSuggestion}
    (h : isAdvisory s = true) : applySuggestion t s = t := by
  unfold applySuggestion
  simp [h]

/-- C4: applySuggestion returns the text unchanged whenever the replacement
is empty or whitespace-only, equal to the original, bracket-wrapped, or
contains one of the hedging phrases consider, try to, you might
(case-insensitively). -/
theorem applySuggestion_advisory_id (t : String) (s : GrammarSuggestion)
    (h : s.suggestion = "" ∨ jsTrim s.suggestion = "" ∨ s.suggestion = s.original ∨
         (startsWithL s.suggestion.data "[".data = true ∧
          endsWithL s.suggestion.data "]".data = true) ∨
         containsL (lowerL s.suggestion.data) "consider".data = true ∨
         containsL (lowerL s.suggestion.data) "try to".data = true ∨
         containsL (lowerL s.suggestion.data) "you might".data = true) :
    applySuggestion t s = t := by
  have hadv : isAdvisory s = true := by
    unfold isAdvisory
    rcases h with h | h | h | ⟨h1, h2⟩ | h | h | h
    · simp [h]
    · simp [h]
    · simp [h]
    · simp [h1, h2]
    · simp [h]
    · simp [h]
    · simp [h]
  exact applySuggestion_id_of_advisory hadv

/-- A concrete advisory suggestion (bracket-wrapped replacement). -/
def advSug : GrammarSuggestion :=
  { id := "a", type := SugType.readability, start := 0, endPos := 2,
    original := "ab", suggestion := "[advisory]", message := "m",
    severity := Severity.low }

/-- C4 witness: the advisory theorem at a concrete text and suggestion. -/
theorem applySuggestion_advisory_id_witness : applySuggestion "abc" advSug = "abc" :=
  applySuggestion_advisory_id "abc" advSug (by decide)

/-! ### C6 and C10: how the replacement text is built from the template -/

/-- Does suggestion s carry exactly the fields checkText builds from the
raw item q = (rule index, rule, match)? -/
def sugFromItem (t : List Char) (s : GrammarSuggestion) (q : Nat × Rule × RMatch) : Bool :=
  s.start == Int.ofNat q.2.2.pos && s.endPos == Int.ofNat q.2.2.stop &&
  s.original == String.mk (extractL t q.2.2.pos q.2.2.stop) &&
  s.suggestion == ruleSuggestionText q.2.1 t q.2.2

/-- C6 counterexample: on "It was tested by Bob" the passive-voice rule has
template dollar-two-space-dollar-one, but only dollar-one backreferences
are substituted, so the produced replacement is "$2 tested" and still
contains the literal token $2. -/
theorem checkText_dollar2_artifact :
    (checkText ids0 "It was tested by Bob").map (fun s => s.suggestion) = ["$2 tested"] ∧
    containsL ("$2 tested" : String).data ("$2" : String).data = true := by
  constructor
  · decide
  · decide

/-- C6 amended: every suggestion of checkText(t) comes from some rule match
with start/end the match span, original the matched substring, and
replacement the template with only the $1 backreferences substituted by
capture group 1 (then trimmed, falling back to the matched substring when
empty); $2 and higher remain literal template text. -/
theorem checkText_fields_from_match (ids : Nat → String) (t : String) (s : GrammarSuggestion)
    (hs : s ∈ checkText ids t) :
    (rawItems t.data).any (sugFromItem t.data s) = true := by
  obtain ⟨k, ri, rule, m, hri, hm, hitem, hmk⟩ := mem_rawSuggestions (mem_checkText hs)
  rw [List.any_eq_true]
  refine ⟨(ri, rule, m), hitem, ?_⟩
  subst hmk
  unfold sugFromItem mkSuggestion
  simp

/-- C6 witness: the amended theorem at the concrete text "teh cat" and its
concrete suggestion. -/
theorem checkText_fields_from_match_witness :
    (rawItems ("teh cat" : String).data).any (sugFromItem ("teh cat" : String).data tehSug) = true :=
  checkText_fields_from_match ids0 "teh cat" tehSug (by decide)

theorem extractL_ne_nil {t : List Char} {a b : Nat} (hab : a < b) (hb : b ≤ t.length) :
    extractL t a b ≠ [] := by
  unfold extractL
  intro h
  have hl := congrArg List.length h
  simp [List.length_take, List.length_drop] at hl
  omega

/-- C10: every produced replacement is non-empty; a replacement equal to
the original makes applySuggestion the identity on every text; and each
suggestion comes from a rule item whose substituted-and-trimmed template,
when empty (the advisory, filler-word, extra-space and extra-line-break
rules), makes the replacement equal the matched substring. -/
theorem checkText_suggestion_nonempty (ids : Nat → String) (t : String) (s : GrammarSuggestion)
    (hs : s ∈ checkText ids t) :
    s.suggestion ≠ "" ∧
    (s.suggestion = s.original → ∀ t2 : String, applySuggestion t2 s = t2) ∧
    (rawItems t.data).any (fun q => sugFromItem t.data s q &&
      (!(trimL (subDollar1 q.2.1.template.data (cap1String t.data q.2.2))).isEmpty ||
        s.suggestion == s.original)) = true := by
  obtain ⟨k, ri, rule, m, hri, hm, hitem, hmk⟩ := mem_rawSuggestions (mem_checkText hs)
  have hrule : rule ∈ allRules := List.getElem?_mem hri
  have hb := ruleMatches_sound hm
  have h1 := allRules_minLen rule hrule
  have hmatched : extractL t.data m.pos m.stop ≠ [] :=
    extractL_ne_nil (by omega) hb.2
  refine ⟨?_, ?_, ?_⟩
  · subst hmk
    unfold mkSuggestion ruleSuggestionText
    simp only
    by_cases hsub : (trimL (subDollar1 rule.template.data (cap1String t.data m))).isEmpty
    · rw [if_pos hsub]
      intro hcon
      exact hmatched (by
        have := congrArg String.data hcon
        simpa using this)
    · rw [if_neg hsub]
      intro hcon
      have := congrArg String.data hcon
      simp at this
      rw [List.isEmpty_iff] at hsub
      exact hsub this
  · intro heq t2
    apply applySuggestion_id_of_advisory
    unfold isAdvisory
    simp [heq]
  · rw [List.any_eq_true]
    refine ⟨(ri, rule, m), hitem, ?_⟩
    rw [Bool.and_eq_true]
    constructor
    · subst hmk
      unfold sugFromItem mkSuggestion
      simp
    · by_cases hsub : (trimL (subDollar1 rule.template.data (cap1String t.data m))).isEmpty
      · rw [Bool.or_eq_true]
        right
        subst hmk
        unfold mkSuggestion ruleSuggestionText
        simp only [beq_iff_eq]
        rw [if_pos hsub]
      · simp [hsub]

/-- The suggestion the filler-word rule (rule index 75) yields on
"really x": the template is empty, so the replacement equals the matched
substring "really ". -/
def reallySug : GrammarSuggestion :=
  { id := "75-0-x", type := SugType.style, start := 0, endPos := 7,
    original := "really ", suggestion := "really ",
    message := "Consider removing \"really\" to make your writing more concise.",
    severity := Severity.low }

/-- C10 witness: the theorem at the concrete text "really x"; its filler
suggestion equals its original and applying it leaves any text unchanged. -/
theorem checkText_suggestion_nonempty_witness :
    reallySug.suggestion ≠ "" ∧ applySuggestion "abc" reallySug = "abc" :=
  ⟨(checkText_suggestion_nonempty ids0 "really x" reallySug (by decide)).1,
   (checkText_suggestion_nonempty ids0 "really x" reallySug (by decide)).2.1 (by decide) "abc"⟩

/-! ### C9: determinism up to the id field -/

/-- All fields of a suggestion except the id (which embeds Date.now and
Math.random). -/
def dropId (s : GrammarSuggestion) :
    SugType × Int × Int × String × String × String × Severity :=
  (s.type, s.start, s.endPos, s.original, s.suggestion, s.message, s.severity)

theorem dropId_start {a b : GrammarSuggestion} (h : dropId a = dropId b) :
    a.start = b.start := congrArg (fun x => x.2.1) h

theorem dropId_span {a b : GrammarSuggestion} (h1 : dropId a = dropId b) :
    a.start = b.start ∧ a.endPos = b.endPos :=
  ⟨congrArg (fun x => x.2.1) h1, congrArg (fun x => x.2.2.1) h1⟩

theorem sameSpanB_congr {x1 x2 y1 y2 : GrammarSuggestion}
    (hx : dropId x1 = dropId x2) (hy : dropId y1 = dropId y2) :
    sameSpanB x1 y1 = sameSpanB x2 y2 := by
  unfold sameSpanB
  rw [(dropId_span hx).1, (dropId_span hx).2, (dropId_span hy).1, (dropId_span hy).2]

theorem enumFrom_map_snd {α β : Type} (g : α → β) :
    ∀ (l : List α) (n : Nat),
      (l.map g).enumFrom n = (l.enumFrom n).map (fun p => (p.1, g p.2)) := by
  intro l
  induction l with
  | nil => intro n; simp
  | cons x xs ih =>
      intro n
      simp only [List.map_cons, List.enumFrom, List.map]
      rw [ih (n+1)]

theorem enum_map_snd {α β : Type} (g : α → β) (l : List α) :
    (l.map g).enum = l.enum.map (fun p => (p.1, g p.2)) := by
  unfold List.enum
  exact enumFrom_map_snd g l 0

/-- dedupSpan over a map keeps the same base indices whenever the mapping
functions agree up to the id field. -/
theorem dedupSpan_map_base {β : Type} (e : List β) (g : β → GrammarSuggestion) :
    dedupSpan (e.map g) =
      (e.enum.filter (fun p => e.findIdx? (fun y => sameSpanB (g y) (g p.2)) == some p.1)).map
        (fun p => g p.2) := by
  unfold dedupSpan
  rw [enum_map_snd g e]
  rw [List.filter_map]
  rw [List.map_map]
  congr 1
  apply List.filter_congr
  intro p _
  simp only [Function.comp]
  rw [List.findIdx?_map]
  rfl

theorem dedupSpan_map_congr {β : Type} (e : List β) (g1 g2 : β → GrammarSuggestion)
    (h : ∀ x, dropId (g1 x) = dropId (g2 x)) :
    (dedupSpan (e.map g1)).map dropId = (dedupSpan (e.map g2)).map dropId := by
  rw [dedupSpan_map_base e g1, dedupSpan_map_base e g2]
  have hq : (fun p : Nat × β => e.findIdx? (fun y => sameSpanB (g1 y) (g1 p.2)) == some p.1) =
      (fun p : Nat × β => e.findIdx? (fun y => sameSpanB (g2 y) (g2 p.2)) == some p.1) := by
    funext p
    have : (fun y => sameSpanB (g1 y) (g1 p.2)) = (fun y => sameSpanB (g2 y) (g2 p.2)) := by
      funext y
      exact sameSpanB_congr (h y) (h p.2)
    rw [this]
  rw [hq]
  rw [List.map_map, List.map_map]
  apply List.map_congr_left
  intro p _
  simp only [Function.comp]
  exact h p.2

/-- Pointwise dropId-agreement is preserved by orderedInsert. -/
theorem forall2_orderedInsert {a b : GrammarSuggestion}
    (hab : dropId a = dropId b) :
    ∀ {l1 l2 : List GrammarSuggestion},
      List.Forall₂ (fun x y => dropId x = dropId y) l1 l2 →
      List.Forall₂ (fun x y => dropId x = dropId y)
        (l1.orderedInsert sugLE a) (l2.orderedInsert sugLE b) := by
  intro l1 l2 hf
  induction hf with
  | nil => exact List.Forall₂.cons hab List.Forall₂.nil
  | cons hxy hrest ih =>
      rename_i x y l1' l2'
      simp only [List.orderedInsert]
      by_cases hle : sugLE a x
      · rw [if_pos hle]
        have hle2 : sugLE b y := by
          unfold sugLE at hle ⊢
          rw [← dropId_start hab, ← dropId_start hxy]
          exact hle
        rw [if_pos hle2]
        exact List.Forall₂.cons hab (List.Forall₂.cons hxy hrest)
      · rw [if_neg hle]
        have hle2 : ¬ sugLE b y := by
          unfold sugLE at hle ⊢
          rw [← dropId_start hab, ← dropId_start hxy]
          exact hle
        rw [if_neg hle2]
        exact List.Forall₂.cons hxy ih

theorem forall2_insertionSort {l1 l2 : List GrammarSuggestion}
    (hf : List.Forall₂ (fun x y => dropId x = dropId y) l1 l2) :
    List.Forall₂ (fun x y => dropId x = dropId y)
      (List.insertionSort sugLE l1) (List.insertionSort sugLE l2) := by
  induction hf with
  | nil => exact List.Forall₂.nil
  | cons hxy hrest ih =>
      simp only [List.insertionSort]
      exact forall2_orderedInsert hxy ih

theorem forall2_of_map_dropId_eq :
    ∀ {l1 l2 : List GrammarSuggestion}, l1.map dropId = l2.map dropId →
      List.Forall₂ (fun x y => dropId x = dropId y) l1 l2 := by
  intro l1
  induction l1 with
  | nil => intro l2 h; cases l2 with
      | nil => exact List.Forall₂.nil
      | cons y ys => simp at h
  | cons x xs ih =>
      intro l2 h
      cases l2 with
      | nil => simp at h
      | cons y ys =>
          simp only [List.map_cons, List.cons.injEq] at h
          exact List.Forall₂.cons h.1 (ih h.2)

theorem map_dropId_eq_of_forall2 :
    ∀ {l1 l2 : List GrammarSuggestion},
      List.Forall₂ (fun x y => dropId x = dropId y) l1 l2 →
      l1.map dropId = l2.map dropId := by
  intro l1 l2 hf
  induction hf with
  | nil => rfl
  | cons hxy _ ih => simp only [List.map_cons]; rw [hxy, ih]

/-- C9 counterexample: two invocations of checkText on "teh" with the
different Date.now/Math.random oracles of two successive calls return
different suggestion lists (the id fields differ). -/
theorem checkText_not_deterministic :
    checkText (fun _ => "a") "teh" ≠ checkText (fun _ => "b") "teh" := by decide

/-- C9 amended: checkText is deterministic up to the id field: for any two
id oracles, the outputs agree elementwise on every field except id (and
hence in length, spans, originals, replacements, messages, severities). -/
theorem checkText_deterministic_up_to_id (ids1 ids2 : Nat → String) (t : String) :
    (checkText ids1 t).map dropId = (checkText ids2 t).map dropId := by
  by_cases he : jsTrim t = ""
  · simp [checkText, he]
  · have hck : ∀ ids : Nat → String, checkText ids t =
        List.insertionSort sugLE (dedupSpan ((rawItems t.data).enum.map
          (fun q => mkSuggestion ids q.1 q.2.1 q.2.2.1 t.data q.2.2.2))) := by
      intro ids
      simp [checkText, he, rawSuggestions]
    rw [hck ids1, hck ids2]
    have hg : ∀ q : Nat × Nat × Rule × RMatch,
        dropId (mkSuggestion ids1 q.1 q.2.1 q.2.2.1 t.data q.2.2.2) =
        dropId (mkSuggestion ids2 q.1 q.2.1 q.2.2.1 t.data q.2.2.2) := by
      intro q
      unfold mkSuggestion dropId
      rfl
    have hded := dedupSpan_map_congr ((rawItems t.data).enum) _ _ hg
    exact map_dropId_eq_of_forall2
      (forall2_insertionSort (forall2_of_map_dropId_eq hded))


/-! ### C5: sub-score ranges and the overall mean -/

theorem toRat_fOfInt (n : Int) : toRat (fOfInt n) = (n : ℚ) := by
  unfold toRat fOfInt
  simp

theorem toRat_fOfNat (n : Nat) : toRat (fOfNat n) = (n : ℚ) := by
  unfold toRat fOfNat
  simp

theorem toRat_fAdd {a b : Frac} (ha : 0 < a.den) (hb : 0 < b.den) :
    toRat (fAdd a b) = toRat a + toRat b := by
  unfold toRat fAdd
  have ha' : ((a.den : ℚ)) ≠ 0 := by exact_mod_cast ha.ne'
  have hb' : ((b.den : ℚ)) ≠ 0 := by exact_mod_cast hb.ne'
  push_cast
  field_simp

theorem toRat_fSub {a b : Frac} (ha : 0 < a.den) (hb : 0 < b.den) :
    toRat (fSub a b) = toRat a - toRat b := by
  unfold toRat fSub
  have ha' : ((a.den : ℚ)) ≠ 0 := by exact_mod_cast ha.ne'
  have hb' : ((b.den : ℚ)) ≠ 0 := by exact_mod_cast hb.ne'
  push_cast
  field_simp
  ring

theorem toRat_fMul (a b : Frac) : toRat (fMul a b) = toRat a * toRat b := by
  unfold toRat fMul
  push_cast
  rw [div_mul_div_comm]

theorem toRat_fDiv {a b : Frac} (ha : 0 < a.den) (hb : 0 < b.den) (hbn : b.num ≠ 0) :
    toRat (fDiv a b) = toRat a / toRat b := by
  unfold toRat fDiv
  have ha' : ((a.den : ℚ)) ≠ 0 := by exact_mod_cast ha.ne'
  have hb' : ((b.den : ℚ)) ≠ 0 := by exact_mod_cast hb.ne'
  have hbn' : ((b.num : ℚ)) ≠ 0 := by exact_mod_cast hbn
  push_cast
  field_simp

theorem fLtB_iff {a b : Frac} (ha : 0 < a.den) (hb : 0 < b.den) :
    fLtB a b = true ↔ toRat a < toRat b := by
  unfold fLtB toRat
  have ha' : (0 : ℚ) < (a.den : ℚ) := by exact_mod_cast ha
  have hb' : (0 : ℚ) < (b.den : ℚ) := by exact_mod_cast hb
  rw [decide_eq_true_iff]
  rw [div_lt_div_iff ha' hb']
  constructor
  · intro h
    exact_mod_cast h
  · intro h
    exact_mod_cast h

theorem fLeB_iff {a b : Frac} (ha : 0 < a.den) (hb : 0 < b.den) :
    fLeB a b = true ↔ toRat a ≤ toRat b := by
  unfold fLeB toRat
  have ha' : (0 : ℚ) < (a.den : ℚ) := by exact_mod_cast ha
  have hb' : (0 : ℚ) < (b.den : ℚ) := by exact_mod_cast hb
  rw [decide_eq_true_iff]
  rw [div_le_div_iff ha' hb']
  constructor
  · intro h
    exact_mod_cast h
  · intro h
    exact_mod_cast h

theorem fMinQ_den_pos {a b : Frac} (ha : 0 < a.den) (hb : 0 < b.den) :
    0 < (fMinQ a b).den := by
  unfold fMinQ
  by_cases h : fLeB a b = true
  · rw [if_pos h]; exact ha
  · rw [if_neg h]; exact hb

theorem fMaxQ_den_pos {a b : Frac} (ha : 0 < a.den) (hb : 0 < b.den) :
    0 < (fMaxQ a b).den := by
  unfold fMaxQ
  by_cases h : fLeB a b = true
  · rw [if_pos h]; exact hb
  · rw [if_neg h]; exact ha

theorem toRat_fMinQ {a b : Frac} (ha : 0 < a.den) (hb : 0 < b.den) :
    toRat (fMinQ a b) = min (toRat a) (toRat b) := by
  unfold fMinQ
  by_cases h : fLeB a b = true
  · rw [if_pos h, min_eq_left ((fLeB_iff ha hb).mp h)]
  · rw [if_neg h]
    have h2 : ¬ toRat a ≤ toRat b := fun hc => h ((fLeB_iff ha hb).mpr hc)
    rw [min_eq_right (le_of_not_le h2)]

theorem toRat_fMaxQ {a b : Frac} (ha : 0 < a.den) (hb : 0 < b.den) :
    toRat (fMaxQ a b) = max (toRat a) (toRat b) := by
  unfold fMaxQ
  by_cases h : fLeB a b = true
  · rw [if_pos h, max_eq_right ((fLeB_iff ha hb).mp h)]
  · rw [if_neg h]
    have h2 : ¬ toRat a ≤ toRat b := fun hc => h ((fLeB_iff ha hb).mpr hc)
    rw [max_eq_left (le_of_not_le h2)]

theorem jsRound_eq_floor {x : Frac} (hx : 0 < x.den) :
    jsRound x = Int.floor (toRat x + 1/2) := by
  unfold jsRound
  have hd : ((2 * x.den).toNat : Int) = 2 * x.den := Int.toNat_of_nonneg (by omega)
  have h1 : toRat x + 1/2 = ((2 * x.num + x.den : Int) : ℚ) / (((2 * x.den).toNat : Nat) : ℚ) := by
    unfold toRat
    have hx' : ((x.den : ℚ)) ≠ 0 := by exact_mod_cast hx.ne'
    have : (((2 * x.den).toNat : Nat) : ℚ) = ((2 * x.den : Int) : ℚ) := by exact_mod_cast hd
    rw [this]
    push_cast
    field_simp
    ring
  rw [h1, Rat.floor_intCast_div_natCast]
  rw [hd]

theorem jsRound_nonneg {x : Frac} (hx : 0 < x.den) (h : 0 ≤ toRat x) : 0 ≤ jsRound x := by
  rw [jsRound_eq_floor hx]
  rw [Int.le_floor]
  push_cast
  linarith

theorem jsRound_le {x : Frac} {n : ℤ} (hx : 0 < x.den) (h : toRat x ≤ (n : ℚ)) :
    jsRound x ≤ n := by
  rw [jsRound_eq_floor hx]
  have h2 : toRat x + 1/2 < ((n + 1 : ℤ) : ℚ) := by push_cast; linarith
  have := Int.floor_lt.mpr h2
  omega

theorem ite_fSub_bound {q : ℚ} {s : Frac} {k : Int} (c : Prop) [Decidable c]
    (hs : 0 < s.den) (hle : toRat s ≤ q) (hk : 0 ≤ k) :
    0 < (if c then fSub s (fOfInt k) else s).den ∧
      toRat (if c then fSub s (fOfInt k) else s) ≤ q := by
  by_cases hc : c
  · rw [if_pos hc]
    constructor
    · show 0 < (fSub s (fOfInt k)).den
      unfold fSub fOfInt
      simpa using hs
    · rw [toRat_fSub hs (by norm_num [fOfInt]), toRat_fOfInt]
      have hk' : (0 : ℚ) ≤ (k : ℚ) := by exact_mod_cast hk
      linarith
  · rw [if_neg hc]
    exact ⟨hs, hle⟩

theorem ite_fAdd_bound {q : ℚ} {s : Frac} {k : Int} (c : Prop) [Decidable c]
    (hs : 0 < s.den) (hle : toRat s ≤ q) (hk : 0 ≤ k) :
    0 < (if c then fAdd s (fOfInt k) else s).den ∧
      toRat (if c then fAdd s (fOfInt k) else s) ≤ q + k := by
  have hk' : (0 : ℚ) ≤ (k : ℚ) := by exact_mod_cast hk
  by_cases hc : c
  · rw [if_pos hc]
    constructor
    · show 0 < (fAdd s (fOfInt k)).den
      unfold fAdd fOfInt
      simpa using hs
    · rw [toRat_fAdd hs (by norm_num [fOfInt]), toRat_fOfInt]
      linarith
  · rw [if_neg hc]
    exact ⟨hs, by linarith⟩

theorem max_min_clamp_bounds (z : Int) :
    0 ≤ max 0 (min 100 z) ∧ max 0 (min 100 z) ≤ 100 := by
  constructor
  · exact le_max_left 0 _
  · rw [max_le_iff]
    exact ⟨by norm_num, min_le_left _ _⟩

theorem calculateCorrectnessScore_bounds (text : String) (sugs : List GrammarSuggestion) :
    0 ≤ calculateCorrectnessScore text sugs ∧ calculateCorrectnessScore text sugs ≤ 100 := by
  simp only [calculateCorrectnessScore]
  by_cases hw : ((jsSplitWs (jsTrim text).data).length == 0) = true
  · simp [hw]
  · simp only [hw, Bool.false_eq_true, if_false]
    set errs := (List.filter (fun s => s.type == SugType.grammar || s.type == SugType.spelling) sugs).length with herrs
    set wds := (jsSplitWs (jsTrim text).data).length with hwds
    have hw2 : 0 < wds := by
      rcases Nat.eq_zero_or_pos wds with h | h
      · rw [h] at hw
        simp at hw
      · exact h
    set e : Frac := fDiv (fOfNat errs) (fOfNat wds) with he
    have hde : 0 < e.den := by
      rw [he]
      unfold fDiv fOfNat
      simp only [Int.ofNat_eq_coe, one_mul]
      exact_mod_cast hw2
    have he0 : 0 ≤ toRat e := by
      rw [he]
      unfold toRat fDiv fOfNat
      apply div_nonneg
      · exact_mod_cast Int.mul_nonneg (Int.ofNat_nonneg _) (by norm_num)
      · exact_mod_cast Int.mul_nonneg (by norm_num) (Int.ofNat_nonneg _)
    set v : Frac := fMaxQ (fOfInt 0) (fSub (fOfInt 100) (fMul e (fOfInt 200))) with hv
    have hsubden : 0 < (fSub (fOfInt 100) (fMul e (fOfInt 200))).den := by
      unfold fSub fMul fOfInt
      simpa using hde
    have hdv : 0 < v.den := by
      rw [hv]
      exact fMaxQ_den_pos (by norm_num [fOfInt]) hsubden
    have hval : toRat v = max 0 (100 - toRat e * 200) := by
      rw [hv]
      rw [toRat_fMaxQ (by norm_num [fOfInt]) hsubden]
      rw [toRat_fSub (by norm_num [fOfInt]) (by unfold fMul fOfInt; simpa using hde)]
      rw [toRat_fMul, toRat_fOfInt, toRat_fOfInt]
      norm_num [toRat_fOfInt]
    constructor
    · apply jsRound_nonneg hdv
      rw [hval]
      exact le_max_left 0 _
    · apply jsRound_le hdv
      rw [hval]
      rw [max_le_iff]
      constructor
      · norm_num
      · push_cast
        nlinarith

theorem fSub_den_pos {a b : Frac} (ha : 0 < a.den) (hb : 0 < b.den) :
    0 < (fSub a b).den := mul_pos ha hb

theorem clarityS2_bounds (stats : TextStats) (hden : 0 < stats.avgWordsPerSentence.den) :
    0 < (clarityS2 stats).den ∧ toRat (clarityS2 stats) ≤ 100 := by
  unfold clarityS2
  by_cases hc : fLtB (fOfInt 25) stats.avgWordsPerSentence = true
  · rw [if_pos hc]
    have hmulden : 0 < (fMul (fSub stats.avgWordsPerSentence (fOfInt 25)) (fOfInt 2)).den := by
      unfold fMul fSub fOfInt
      simpa using hden
    have hminden : 0 < (fMinQ (fOfInt 30) (fMul (fSub stats.avgWordsPerSentence (fOfInt 25)) (fOfInt 2))).den :=
      fMinQ_den_pos (by norm_num [fOfInt]) hmulden
    constructor
    · exact fSub_den_pos (by norm_num [fOfInt]) hminden
    · rw [toRat_fSub (by norm_num [fOfInt]) hminden, toRat_fOfInt]
      have hgt : toRat (fOfInt 25) < toRat stats.avgWordsPerSentence :=
        (fLtB_iff (by norm_num [fOfInt]) hden).mp hc
      rw [toRat_fOfInt] at hgt
      have hmin : 0 ≤ toRat (fMinQ (fOfInt 30) (fMul (fSub stats.avgWordsPerSentence (fOfInt 25)) (fOfInt 2))) := by
        rw [toRat_fMinQ (by norm_num [fOfInt]) hmulden]
        rw [le_min_iff]
        constructor
        · rw [toRat_fOfInt]; norm_num
        · rw [toRat_fMul, toRat_fSub hden (by norm_num [fOfInt]), toRat_fOfInt, toRat_fOfInt]
          have h25 : ((25 : Int) : ℚ) ≤ toRat stats.avgWordsPerSentence := le_of_lt hgt
          have hnn : (0 : ℚ) ≤ toRat stats.avgWordsPerSentence - ((25 : Int) : ℚ) := by linarith
          have h2 : (0 : ℚ) ≤ ((2 : Int) : ℚ) := by norm_num
          exact mul_nonneg hnn h2
      push_cast
      linarith
  · rw [if_neg hc]
    constructor
    · norm_num [fOfInt]
    · rw [toRat_fOfInt]; norm_num

theorem clarityS5_bounds (text : String) (stats : TextStats)
    (hden : 0 < stats.avgWordsPerSentence.den) :
    0 < (clarityS5 text stats).den ∧ toRat (clarityS5 text stats) ≤ 105 := by
  have h2 := clarityS2_bounds stats hden
  have h3 : 0 < (clarityS3 stats).den ∧ toRat (clarityS3 stats) ≤ 100 := by
    unfold clarityS3
    exact ite_fSub_bound _ h2.1 h2.2 (by norm_num)
  have h4 : 0 < (clarityS4 stats).den ∧ toRat (clarityS4 stats) ≤ 105 := by
    have h := ite_fAdd_bound (((60 : Int) < stats.readabilityScore)) h3.1 h3.2
      (show (0 : Int) ≤ 5 by norm_num)
    unfold clarityS4
    refine ⟨h.1, ?_⟩
    have h5 := h.2
    push_cast at h5
    linarith
  unfold clarityS5
  exact ite_fSub_bound _ h4.1 h4.2 (by norm_num)

theorem calculateClarityScore_bounds (text : String) (stats : TextStats)
    (hden : 0 < stats.avgWordsPerSentence.den) :
    0 ≤ calculateClarityScore text stats ∧ calculateClarityScore text stats ≤ 105 := by
  have h5 := clarityS5_bounds text stats hden
  unfold calculateClarityScore
  constructor
  · exact le_max_left 0 _
  · rw [max_le_iff]
    constructor
    · norm_num
    · exact jsRound_le h5.1 (by exact_mod_cast h5.2)

theorem calculateEngagementScore_bounds (text : String) (stats : TextStats) :
    0 ≤ calculateEngagementScore text stats ∧ calculateEngagementScore text stats ≤ 100 := by
  unfold calculateEngagementScore
  exact max_min_clamp_bounds _

theorem calculateDeliveryScore_bounds (text : String) (stats : TextStats) :
    0 ≤ calculateDeliveryScore text stats ∧ calculateDeliveryScore text stats ≤ 100 := by
  unfold calculateDeliveryScore
  exact max_min_clamp_bounds _

theorem getTextStats_awps_den_pos (t : String) :
    0 < (getTextStats t).avgWordsPerSentence.den := by
  unfold getTextStats
  by_cases he : jsTrim t = ""
  · rw [if_pos he]
    norm_num [fOfInt]
  · rw [if_neg he]
    norm_num

/-- C5: counterexample.  On the empty text the clarity sub-score produced by
analyzeText is 105: the source clamps clarity only from below
(Math.max(0, Math.round(score))), so the +5 readability bonus can push it
above 100, contradicting the claim that each sub-score lies in 0..100. -/
theorem analyzeText_clarity_105 :
    (analyzeText ids0 "").score.clarity = 105 ∧
      ¬ ((analyzeText ids0 "").score.clarity ≤ 100) := by
  constructor
  · decide
  · decide

/-- C5 (amended): correctness, engagement and delivery lie in 0..100;
clarity lies in 0..105 (the clarity heuristic is clamped only from below and
the readability bonus can exceed 100); the overall score is the unweighted
mean of the four sub-scores rounded via Math.round, i.e. floor(mean + 1/2). -/
theorem analyzeText_score_bounds (ids : Nat → String) (t : String) :
    0 ≤ (analyzeText ids t).score.correctness ∧
      (analyzeText ids t).score.correctness ≤ 100 ∧
    0 ≤ (analyzeText ids t).score.clarity ∧
      (analyzeText ids t).score.clarity ≤ 105 ∧
    0 ≤ (analyzeText ids t).score.engagement ∧
      (analyzeText ids t).score.engagement ≤ 100 ∧
    0 ≤ (analyzeText ids t).score.delivery ∧
      (analyzeText ids t).score.delivery ≤ 100 ∧
    (analyzeText ids t).score.overall =
      Int.floor ((((analyzeText ids t).score.correctness +
        (analyzeText ids t).score.clarity +
        (analyzeText ids t).score.engagement +
        (analyzeText ids t).score.delivery : Int) : ℚ) / 4 + 1/2) := by
  have hden := getTextStats_awps_den_pos t
  have hc := calculateCorrectnessScore_bounds t (checkText ids t)
  have hcl := calculateClarityScore_bounds t (getTextStats t) hden
  have he := calculateEngagementScore_bounds t (getTextStats t)
  have hd := calculateDeliveryScore_bounds t (getTextStats t)
  simp only [analyzeText]
  refine ⟨hc.1, hc.2, hcl.1, hcl.2, he.1, he.2, hd.1, hd.2, ?_⟩
  rw [jsRound_eq_floor (by norm_num [fDiv, fOfInt])]
  rw [toRat_fDiv (by norm_num [fOfInt]) (by norm_num [fOfInt]) (by norm_num [fOfInt])]
  rw [toRat_fOfInt, toRat_fOfInt]
  norm_num

/-! ### C1: totality and splice shape of applySuggestion -/

theorem firstIdxGo_le {pat : List Char} :
    ∀ {l : List Char} {i : Nat}, firstIdxGo pat l = some i → i + pat.length ≤ l.length := by
  intro l
  induction l with
  | nil =>
      intro i h
      unfold firstIdxGo at h
      by_cases hp : pat.isEmpty = true
      · rw [if_pos hp] at h
        cases h
        simp [List.isEmpty_iff] at hp
        simp [hp]
      · rw [if_neg hp] at h
        cases h
  | cons c rest ih =>
      intro i h
      unfold firstIdxGo at h
      by_cases hp : pat.isPrefixOf (c :: rest) = true
      · rw [if_pos hp] at h
        cases h
        have := (List.isPrefixOf_iff_prefix.mp hp).length_le
        simpa using this
      · rw [if_neg hp] at h
        rcases Option.map_eq_some'.mp h with ⟨j, hj, rfl⟩
        have := ih hj
        simp only [List.length_cons]
        omega

theorem firstIdxL_le {t pat : List Char} {i : Nat} (h : firstIdxL t pat = some i) :
    i + pat.length ≤ t.length := firstIdxGo_le h

/-- The result of applySuggestion is the input text unchanged, or a single
splice of the replacement text over a contiguous in-bounds segment. -/
def spliceResult (text : String) (s : GrammarSuggestion) (r : String) : Prop :=
  r = text ∨ ∃ a b, a ≤ b ∧ b ≤ text.data.length ∧
    r.data = text.data.take a ++ s.suggestion.data ++ text.data.drop b

theorem spliceResult_fb6 (text : String) (s : GrammarSuggestion) :
    spliceResult text s (applyFallback6 text s) := by
  unfold spliceResult applyFallback6
  split
  · right
    refine ⟨0, text.data.length, Nat.zero_le _, le_refl _, ?_⟩
    simp
  · left; rfl

theorem spliceResult_fb5 (text : String) (s : GrammarSuggestion) :
    spliceResult text s (applyFallback5 text s) := by
  have h6 := spliceResult_fb6 text s
  simp only [applyFallback5]
  split
  · split
    · rename_i m heq
      have hb := execFirst_sound heq
      right
      exact ⟨m.pos, m.stop, le_trans (Nat.le_add_right _ _) hb.1, hb.2, rfl⟩
    · exact h6
  · exact h6

theorem spliceResult_fb4 (text : String) (s : GrammarSuggestion) :
    spliceResult text s (applyFallback4 text s) := by
  have h5 := spliceResult_fb5 text s
  simp only [applyFallback4]
  split
  · split
    · split
      · rename_i m heq
        have hb := execFirst_sound heq
        right
        exact ⟨m.pos, m.stop, le_trans (Nat.le_add_right _ _) hb.1, hb.2, rfl⟩
      · exact h5
    · exact h5
  · exact h5

theorem spliceResult_fb3 (text : String) (s : GrammarSuggestion) :
    spliceResult text s (applyFallback3 text s) := by
  have h4 := spliceResult_fb4 text s
  simp only [applyFallback3]
  split
  · rename_i i heq
    split
    · have hb := firstIdxL_le heq
      right
      exact ⟨i, i + (trimL s.original.data).length, Nat.le_add_right _ _, hb, rfl⟩
    · exact h4
  · exact h4

theorem spliceResult_fb12 (text : String) (s : GrammarSuggestion) :
    spliceResult text s (applyFallback12 text s) := by
  have h3 := spliceResult_fb3 text s
  simp only [applyFallback12]
  split
  · rename_i i heq
    have hb := firstIdxL_le heq
    right
    exact ⟨i, i + s.original.data.length, Nat.le_add_right _ _, hb, rfl⟩
  · split
    · rename_i i heq
      have hb := firstIdxL_le heq
      rw [lowerL, lowerL, List.length_map, List.length_map] at hb
      right
      exact ⟨i, i + s.original.data.length, Nat.le_add_right _ _, hb, rfl⟩
    · exact h3

theorem spliceResult_apply (text : String) (s : GrammarSuggestion) :
    spliceResult text s (applySuggestion text s) := by
  have h12 := spliceResult_fb12 text s
  simp only [applySuggestion]
  split
  · left; rfl
  · split
    · rename_i hg
      simp only [Bool.and_eq_true, decide_eq_true_eq] at hg
      split
      · right
        refine ⟨s.start.toNat, s.endPos.toNat, ?_, ?_, rfl⟩
        · exact Int.toNat_le_toNat (le_of_lt hg.2)
        · exact Int.toNat_le.mpr hg.1.2
      · exact h12
    · exact h12

/-- The suggestion produced by the multiple-very rule on "very very x",
used as the C1 counterexample input. -/
def veryS : GrammarSuggestion :=
  { id := "70-0-x", type := SugType.style, start := 0, endPos := 10,
    original := "very very ", suggestion := "very",
    message := "Multiple \"very\" words detected. Consider using a stronger adjective instead.",
    severity := Severity.low }

/-- C1 counterexample: the multiple-very suggestion computed on
"very very x" (span 0..10, original "very very ", replacement "very"),
applied to the mutated text "very very", returns "very" via the trimmed
fallback: the result is neither the text unchanged nor of length
len(t2) - len(original) + len(replacement) = 9 - 10 + 4 = 3. -/
theorem applySuggestion_length_violation :
    veryS ∈ checkText ids0 "very very x" ∧
    applySuggestion "very very" veryS ≠ "very very" ∧
    ((applySuggestion "very very" veryS).data.length : Int) ≠
      ("very very".data.length : Int) - veryS.original.data.length +
        veryS.suggestion.data.length := by
  refine ⟨by decide, by decide, by decide⟩

/-- C1 (amended): applySuggestion is total (never throws) and for every
current text and suggestion it either returns the text exactly unchanged or
returns the text with the replacement spliced over one contiguous in-bounds
segment; the replaced segment need not have the length of the suggestion's
original field (the trimmed fallback replaces the trimmed original). -/
theorem applySuggestion_total_splice (t : String) (s : GrammarSuggestion) :
    applySuggestion t s = t ∨
      ∃ a b, a ≤ b ∧ b ≤ t.data.length ∧
        (applySuggestion t s).data =
          t.data.take a ++ s.suggestion.data ++ t.data.drop b := by
  have h := spliceResult_apply t s
  unfold spliceResult at h
  exact h

/-! ### C8: the keep/drop behaviour of the AI validation pipeline -/

/-- Feedback statistics with "bad" recorded as a commonly rejected phrase,
used as the C8 counterexample environment. -/
def stats0 : FeedbackStats :=
  { commonAccepted := [], commonRejected := ["bad"], acceptanceRate := fun _ => none }

/-- An AI response entry whose recorded span no longer matches its original
but whose original is findable via indexOf, used for C8. -/
def e0 : OpenAISuggestion :=
  { original := some "a", suggestion := some "bad", reason := "r",
    type := SugType.grammar, severity := Severity.low,
    start_pos := some 0, end_pos := some 1 }

/-- C8 counterexample: on the text "xa" the entry e0 passes the bounds
filter, its recorded span 0..1 does not match its original "a", the
original is findable via indexOf (at offset 1) and the conversion succeeds,
yet checkTextWithAI drops it: its replacement "bad" contains a commonly
rejected phrase, so the final personalization filter removes the entry
rather than keeping it. -/
theorem checkTextWithAI_drops_relocatable :
    validEntry "xa".data.length e0 = true ∧
    jsSubstringL "xa".data 0 1 ≠ "a".data ∧
    firstIdxL "xa".data "a".data = some 1 ∧
    (convertEntry ids0 "xa".data 0 e0).isSome = true ∧
    checkTextWithAI stats0 ids0 "xa" [e0] = [] := by
  refine ⟨by decide, by decide, by decide, by decide, by decide⟩

/-- C8 (amended): a suggestion is in the output of checkTextWithAI exactly
when some entry of the bounds-filtered response array converts to it
(convertEntry: required fields truthy and in-bounds, span verified against
the text, repositioned to the first indexOf occurrence on a mismatch,
dropped individually when relocation also fails) and its replacement does
not contain a commonly rejected phrase; so a relocatable entry is kept
unless the personalization filter removes it. -/
theorem checkTextWithAI_mem_iff (stats : FeedbackStats) (ids : Nat → String)
    (text : String) (l : List OpenAISuggestion) (sc : GrammarSuggestion) :
    sc ∈ checkTextWithAI stats ids text l ↔
      (∃ k e, (l.filter (validEntry text.data.length))[k]? = some e ∧
        convertEntry ids text.data k e = some sc) ∧
      isCommonlyRejected stats sc = false := by
  simp only [checkTextWithAI]
  rw [List.mem_filter]
  rw [(List.perm_insertionSort (rateRel stats) _).mem_iff]
  rw [List.reduceOption_mem_iff]
  constructor
  · rintro ⟨hmem, hb⟩
    refine ⟨?_, by simpa using hb⟩
    rcases List.mem_map.mp hmem with ⟨⟨k, e⟩, hpe, hfe⟩
    exact ⟨k, e, List.mem_enum_iff_getElem?.mp hpe, hfe⟩
  · rintro ⟨⟨k, e, hk, hc⟩, hr⟩
    constructor
    · have hpe : (k, e) ∈ (List.filter (validEntry text.data.length) l).enum :=
        List.mem_enum_iff_getElem?.mpr hk
      rw [← hc]
      exact List.mem_map_of_mem _ hpe
    · simp [hr]

/-! ### C7: round-trip behaviour.  Inversion lemmas for the star-free
patterns of the spelling rules. -/

theorem mtch_eps_inv {t : List Char} {d : RE → Nat → Caps → List (Nat × Caps)}
    {p q : Nat} {cs cs2 : Caps} (h : (q, cs2) ∈ mtchStep t d .eps p cs) :
    q = p ∧ cs2 = cs := by
  simp [mtchStep] at h
  exact h

theorem mtch_cls_inv {t : List Char} {d : RE → Nat → Caps → List (Nat × Caps)}
    {f : Char → Bool} {p q : Nat} {cs cs2 : Caps}
    (h : (q, cs2) ∈ mtchStep t d (.cls f) p cs) :
    ∃ c, t[p]? = some c ∧ f c = true ∧ q = p + 1 ∧ cs2 = cs := by
  unfold mtchStep at h
  cases ht : t[p]? with
  | none => rw [ht] at h; simp at h
  | some c =>
      rw [ht] at h
      have h2 : (q, cs2) ∈ (if f c = true then [(p + 1, cs)] else []) := h
      by_cases hf : f c = true
      · rw [if_pos hf] at h2
        simp at h2
        exact ⟨c, rfl, hf, h2.1, h2.2⟩
      · rw [if_neg hf] at h2
        simp at h2

theorem mtch_cat_inv {t : List Char} {d : RE → Nat → Caps → List (Nat × Caps)}
    {r1 r2 : RE} {p q : Nat} {cs cs2 : Caps}
    (h : (q, cs2) ∈ mtchStep t d (.cat r1 r2) p cs) :
    ∃ x, x ∈ mtchStep t d r1 p cs ∧ (q, cs2) ∈ mtchStep t d r2 x.1 x.2 := by
  unfold mtchStep at h
  rw [List.mem_flatMap] at h
  exact h

theorem mtch_wordB_inv {t : List Char} {d : RE → Nat → Caps → List (Nat × Caps)}
    {p q : Nat} {cs cs2 : Caps} (h : (q, cs2) ∈ mtchStep t d .wordB p cs) :
    boundaryAt t p = true ∧ q = p ∧ cs2 = cs := by
  unfold mtchStep at h
  by_cases hb : boundaryAt t p = true
  · rw [if_pos hb] at h
    simp at h
    exact ⟨hb, h.1, h.2⟩
  · rw [if_neg hb] at h
    simp at h

theorem tehRE_inv {t : List Char} {d : RE → Nat → Caps → List (Nat × Caps)}
    {p q : Nat} {cs cs2 : Caps}
    (h : (q, cs2) ∈ mtchStep t d (bWord "teh") p cs) :
    q = p + 3 ∧ ∃ c, t[p + 1]? = some c ∧ (asciiLower c == 'e') = true := by
  obtain ⟨x1, hx1, h1⟩ := mtch_cat_inv h
  obtain ⟨_, hq1, hcs1⟩ := mtch_wordB_inv hx1
  rw [hq1, hcs1] at h1
  obtain ⟨x2, hx2, h2⟩ := mtch_cat_inv h1
  obtain ⟨x3, hx3, h3⟩ := mtch_cat_inv hx2
  obtain ⟨c1, ht1, hf1, hq3, hcs3⟩ := mtch_cls_inv hx3
  rw [hq3, hcs3] at h3
  obtain ⟨x4, hx4, h4⟩ := mtch_cat_inv h3
  obtain ⟨c2, ht2, hf2, hq4, hcs4⟩ := mtch_cls_inv hx4
  rw [hq4, hcs4] at h4
  obtain ⟨x5, hx5, h5⟩ := mtch_cat_inv h4
  obtain ⟨c3, ht3, hf3, hq5, hcs5⟩ := mtch_cls_inv hx5
  rw [hq5, hcs5] at h5
  obtain ⟨hq6, hcs6⟩ := mtch_eps_inv h5
  rw [hq6, hcs6] at h2
  obtain ⟨x6, hx6, h6⟩ := mtch_cat_inv h2
  obtain ⟨_, hq7, hcs7⟩ := mtch_wordB_inv hx6
  rw [hq7, hcs7] at h6
  obtain ⟨hq8, _⟩ := mtch_eps_inv h6
  refine ⟨by omega, c2, ht2, hf2⟩

/-- The message of the teh spelling rule, used to identify the rule. -/
def tehMsg : String := "Spelling error: \"teh\" should be \"the\""

/-- The teh spelling rule (index 15 of the rule table). -/
def tehRule : Rule := R (bWord "teh") "the" tehMsg SugType.spelling Severity.high

theorem tehRE_mtchF_inv {t : List Char} {fuel p q : Nat} {cs cs2 : Caps}
    (h : (q, cs2) ∈ mtchF t fuel (bWord "teh") p cs) :
    q = p + 3 ∧ ∃ c, t[p + 1]? = some c ∧ (asciiLower c == 'e') = true := by
  cases fuel with
  | zero => simp [mtchF] at h
  | succ f => exact tehRE_inv h

theorem tehMsg_only_15 : ∀ pr ∈ allRules.enum, pr.2.message = tehMsg → pr.1 = 15 := by
  have h : allRules.enum.all (fun pr => pr.1 == 15 || !(pr.2.message == tehMsg)) = true := by
    decide
  intro pr hpr hmsg
  have h2 := (List.all_eq_true.mp h) pr hpr
  simp at h2
  rcases h2 with h2 | h2
  · exact h2
  · exact absurd hmsg h2

theorem teh_rule_of_msg {ri : Nat} {rule : Rule}
    (hri : allRules[ri]? = some rule) (hmsg : rule.message = tehMsg) :
    ri = 15 ∧ rule = tehRule := by
  have h15 : ri = 15 :=
    tehMsg_only_15 (ri, rule) (List.mem_enum_iff_getElem?.mpr hri) hmsg
  subst h15
  have h : allRules[15]? = some tehRule := rfl
  rw [hri] at h
  exact ⟨rfl, Option.some.inj h⟩

theorem tehRule_matches_inv {t : List Char} {m : RMatch}
    (hm : m ∈ ruleMatches tehRule t) :
    m.stop = m.pos + 3 ∧ m.pos + 3 ≤ t.length ∧
      ∃ c, t[m.pos + 1]? = some c ∧ (asciiLower c == 'e') = true := by
  have hglob : ruleMatches tehRule t = execAll t (bWord "teh") := rfl
  rw [hglob] at hm
  have h1 := execAllGo_sound (Nat.zero_le _) m hm
  have h2 := tehRE_mtchF_inv h1.2
  have h3 := execAll_sound hm
  exact ⟨h2.1, by omega, h2.2⟩

theorem extractL3_getElem1 (t : List Char) (a : Nat) :
    (extractL t a (a + 3))[1]? = t[a + 1]? := by
  unfold extractL
  rw [List.getElem?_take]
  have h3 : a + 3 - a = 3 := by omega
  rw [h3]
  rw [if_pos (by omega)]
  rw [List.getElem?_drop]

/-- The repeated-word suggestion computed on "aa aa aa", used as the C7
counterexample. -/
def aaS : GrammarSuggestion :=
  { id := "66-0-x", type := SugType.readability, start := 0, endPos := 5,
    original := "aa aa", suggestion := "aa",
    message := "Repeated word detected. Consider removing the duplicate.",
    severity := Severity.medium }

/-- C7 counterexample: on "aa aa aa" the repeated-word rule yields the span
0..5 with original "aa aa" and replacement "aa"; applying it gives "aa aa",
and re-running checkText on that result again yields a suggestion with the
same span 0..5 from the same rule, so the round trip reproduces the same
(start, end, rule) suggestion. -/
theorem checkText_roundtrip_violation :
    aaS ∈ checkText ids0 "aa aa aa" ∧
    applySuggestion "aa aa aa" aaS = "aa aa" ∧
    (checkText ids0 (applySuggestion "aa aa aa" aaS)).any
      (fun s2 => sameSpanB s2 aaS && (s2.message == aaS.message)) = true := by
  refine ⟨by decide, by decide, by decide⟩

/-- C7 (amended): the round trip does hold for the teh spelling rule: for
every text t and every suggestion of that rule in checkText(t), applying it
to t and re-running checkText yields no suggestion of the same rule with
the same (start, end) span (the matched "teh" token is replaced by "the",
which the pattern cannot match at that offset); the property fails for
rules whose replacement re-creates a match, such as the repeated-word rule. -/
theorem checkText_roundtrip_teh (ids1 ids2 : Nat → String) (t : String)
    (s : GrammarSuggestion) (hs : s ∈ checkText ids1 t) (hmsg : s.message = tehMsg) :
    (checkText ids2 (applySuggestion t s)).all
      (fun s2 => !(sameSpanB s2 s && (s2.message == s.message))) = true := by
  obtain ⟨k, ri, rule, m, hri, hm, hitem, hmk⟩ := mem_rawSuggestions (mem_checkText hs)
  have hmsgr : rule.message = tehMsg := by rw [hmk] at hmsg; exact hmsg
  obtain ⟨h15, hrule⟩ := teh_rule_of_msg hri hmsgr
  subst hrule
  subst hmk
  obtain ⟨hstop, hlen, c, hc, hce⟩ := tehRule_matches_inv hm
  have hsugg : (mkSuggestion ids1 k ri tehRule t.data m).suggestion = "the" := rfl
  have hne : (("the" : String) == String.mk (extractL t.data m.pos m.stop)) = false := by
    rw [beq_eq_false_iff_ne]
    intro heq
    have h1 : (extractL t.data m.pos m.stop)[1]? = some 'h' := by
      have hdata : "the".data = extractL t.data m.pos m.stop := congrArg String.data heq
      rw [← hdata]
      rfl
    rw [hstop, extractL3_getElem1, hc] at h1
    have hch : c = 'h' := Option.some.inj h1
    rw [hch] at hce
    exact absurd hce (by decide)
  have hadv : isAdvisory (mkSuggestion ids1 k ri tehRule t.data m) = false := by
    unfold isAdvisory
    rw [hsugg]
    rw [show (mkSuggestion ids1 k ri tehRule t.data m).original =
      String.mk (extractL t.data m.pos m.stop) from rfl]
    rw [hne]
    rfl
  have happ : applySuggestion t (mkSuggestion ids1 k ri tehRule t.data m) =
      String.mk (spliceL t.data m.pos (m.pos + 3) "the".data) := by
    simp only [applySuggestion]
    split
    · rename_i hA
      rw [hadv] at hA
      simp at hA
    · split
      · split
        · rw [← hstop]
          rfl
        · rename_i hSub
          exact absurd (beq_self_eq_true (extractL t.data m.pos m.stop)) hSub
      · rename_i hG
        apply absurd _ hG
        simp only [mkSuggestion, Int.ofNat_eq_coe, Bool.and_eq_true, decide_eq_true_eq]
        refine ⟨⟨?_, ?_⟩, ?_⟩ <;> omega
  rw [happ, List.all_eq_true]
  intro s2 hs2
  obtain ⟨k2, ri2, rule2, m2, hri2, hm2, hitem2, hmk2⟩ :=
    mem_rawSuggestions (mem_checkText hs2)
  subst hmk2
  by_cases hr2 : rule2.message = tehMsg
  · obtain ⟨h15b, hrule2⟩ := teh_rule_of_msg hri2 hr2
    subst hrule2
    obtain ⟨hstop2, hlen2, c2, hc2, hce2⟩ := tehRule_matches_inv hm2
    by_cases hpos : m2.pos = m.pos
    · exfalso
      have hchar : (spliceL t.data m.pos (m.pos + 3) "the".data)[m.pos + 1]? = some 'h' := by
        unfold spliceL
        rw [List.append_assoc]
        have hlen1 : (List.take m.pos t.data).length ≤ m.pos + 1 := by
          rw [List.length_take]; omega
        rw [List.getElem?_append_right hlen1]
        rw [List.length_take]
        have h1 : m.pos + 1 - min m.pos t.data.length = 1 := by omega
        rw [h1]
        rw [List.getElem?_append_left (by decide)]
        rfl
      have hc2b : (spliceL t.data m.pos (m.pos + 3) "the".data)[m2.pos + 1]? = some c2 := hc2
      rw [hpos, hchar] at hc2b
      have hc2h : c2 = 'h' := (Option.some.inj hc2b).symm
      rw [hc2h] at hce2
      exact absurd hce2 (by decide)
    · have hss : sameSpanB
          (mkSuggestion ids2 k2 ri2 tehRule (String.mk (spliceL t.data m.pos (m.pos + 3) "the".data)).data m2)
          (mkSuggestion ids1 k ri tehRule t.data m) = false := by
        unfold sameSpanB
        have hst : ((mkSuggestion ids2 k2 ri2 tehRule (String.mk (spliceL t.data m.pos (m.pos + 3) "the".data)).data m2).start ==
            (mkSuggestion ids1 k ri tehRule t.data m).start) = false := by
          rw [beq_eq_false_iff_ne]
          intro hh
          have hh2 : Int.ofNat m2.pos = Int.ofNat m.pos := hh
          exact hpos (Int.ofNat.inj hh2)
        rw [hst, Bool.false_and]
      rw [hss, Bool.false_and]
      rfl
  · have hbm : ((mkSuggestion ids2 k2 ri2 rule2 (String.mk (spliceL t.data m.pos (m.pos + 3) "the".data)).data m2).message ==
        (mkSuggestion ids1 k ri tehRule t.data m).message) = false := by
      rw [beq_eq_false_iff_ne]
      intro hh
      exact hr2 hh
    rw [hbm, Bool.and_false]
    rfl

/-- The teh suggestion on "teh cat", a concrete input for the round-trip
theorem. -/
def tehSug7 : GrammarSuggestion :=
  { id := "15-0-x", type := SugType.spelling, start := 0, endPos := 3,
    original := "teh", suggestion := "the",
    message := tehMsg, severity := Severity.high }

theorem checkText_roundtrip_teh_witness :
    tehSug7 ∈ checkText ids0 "teh cat" ∧ tehSug7.message = tehMsg ∧
    (checkText ids0 (applySuggestion "teh cat" tehSug7)).all
      (fun s2 => !(sameSpanB s2 tehSug7 && (s2.message == tehSug7.message))) = true :=
  ⟨by decide, by decide,
   checkText_roundtrip_teh ids0 ids0 "teh cat" tehSug7 (by decide) (by decide)⟩
